import Mathlib

/-!
# Lease-based leader election demo

A shallow embedding of `main.go` (the process bootstrap, the `currentLeader`
variable with the three leadership callbacks, the status monitor) and of the
election configurations passed by `main.go` and `main_test.go`.

The election engine itself (`leaderelection.RunOrDie`) is a library that
`main.go` calls; where a statement needs its behaviour, the engine is modelled
from the specification, in the second half of the definitions: the lease
store, one tick of the engine, its release and its run, and a cluster of
candidates on one store.
-/

namespace LeaderElection

/-! ## Logging and time -/

/-- One call of the `log` package: the format string and its arguments. -/
structure LogEntry where
  format : String
  args : List String
deriving DecidableEq, Repr

/-- Go's `time.Duration`: a count of nanoseconds. -/
abbrev Duration := Int

/-- The constant `time.Second`. -/
def time.Second : Duration := 1000000000

/-! ## Kubernetes client objects used by `main.go` -/

/-- The result of `rest.InClusterConfig()`. -/
structure RestConfig where
  host : String
deriving DecidableEq, Repr

/-- A clientset: built by `kubernetes.NewForConfig` in `main.go`, or the fake
one of `fake.NewSimpleClientset()` in the tests. -/
inductive Clientset where
  | forConfig (config : RestConfig)
  | fake
deriving DecidableEq, Repr

/-- The fields of `metav1.ObjectMeta` that the lock sets. -/
structure ObjectMeta where
  Name : String
  Namespace : String
deriving DecidableEq, Repr

/-- The type `resourcelock.ResourceLockConfig`. -/
structure ResourceLockConfig where
  Identity : String
deriving DecidableEq, Repr

/-- The type `resourcelock.LeaseLock`. -/
structure LeaseLock where
  LeaseMeta : ObjectMeta
  Client : Clientset
  LockConfig : ResourceLockConfig
deriving DecidableEq, Repr

/-- The timing and lock fields of `leaderelection.LeaderElectionConfig`
(the callbacks are the functions `OnStartedLeading`, `OnStoppedLeading` and
`OnNewLeader` below). -/
structure LeaderElectionConfig where
  Lock : LeaseLock
  ReleaseOnCancel : Bool
  LeaseDuration : Duration
  RenewDeadline : Duration
  RetryPeriod : Duration
deriving DecidableEq, Repr

/-! ## The callbacks of `main.go` and the variable `currentLeader` -/

/-- The state that the closures of `main` share: the variable `currentLeader`
(`var currentLeader string`, initially empty) and the lines logged so far. -/
structure MainState where
  currentLeader : String
  log : List LogEntry
deriving DecidableEq, Repr

/-- The state when `main` declares `currentLeader`. -/
def MainState.initial : MainState := { currentLeader := "", log := [] }

/-- The statement `log.Printf(format, args...)`. -/
def MainState.printf (s : MainState) (format : String) (args : List String) : MainState :=
  { s with log := s.log ++ [{ format := format, args := args }] }

/-- The line both `OnStartedLeading` and the monitor print. -/
def leaderLine (podName : String) : LogEntry :=
  { format := "[%s] >>> I am now the LEADER <<<", args := [podName] }

/-- The line both `OnNewLeader` and the monitor print. -/
def newLeaderLine (podName identity : String) : LogEntry :=
  { format := "[%s] New leader elected: %s", args := [podName, identity] }

/-- The callback `OnStartedLeading` of `main`. -/
def OnStartedLeading (podName : String) (s : MainState) : MainState :=
  MainState.printf { s with currentLeader := podName }
    "[%s] >>> I am now the LEADER <<<" [podName]

/-- The callback `OnStoppedLeading` of `main`. -/
def OnStoppedLeading (podName : String) (s : MainState) : MainState :=
  MainState.printf s "[%s] Lost leadership" [podName]

/-- The callback `OnNewLeader` of `main`: returns at once for the pod's own
identity. -/
def OnNewLeader (podName : String) (identity : String) (s : MainState) : MainState :=
  if identity = podName then s
  else
    MainState.printf { s with currentLeader := identity }
      "[%s] New leader elected: %s" [podName, identity]

/-- One invocation of a leadership callback by the engine. -/
inductive CallbackCall where
  | startedLeading
  | stoppedLeading
  | newLeader (identity : String)
deriving DecidableEq, Repr

/-- Runs the callback of `main` that the call names. -/
def invoke (podName : String) (c : CallbackCall) (s : MainState) : MainState :=
  match c with
  | .startedLeading => OnStartedLeading podName s
  | .stoppedLeading => OnStoppedLeading podName s
  | .newLeader identity => OnNewLeader podName identity s

/-- Runs a sequence of callback invocations in order. -/
def invokeAll (podName : String) (calls : List CallbackCall) (s : MainState) : MainState :=
  calls.foldl (fun acc c => invoke podName c acc) s

/-- The body of the `case <-ticker.C:` branch of the status goroutine. -/
def monitorTick (podName : String) (s : MainState) : MainState :=
  if s.currentLeader = podName then
    MainState.printf s "[%s] >>> I am now the LEADER <<<" [podName]
  else if s.currentLeader ≠ "" then
    MainState.printf s "[%s] New leader elected: %s" [podName, s.currentLeader]
  else s

/-! ## The bootstrap of `main` -/

/-- What `main` reads from outside the process: the environment variables and
the results of the two client constructors. -/
structure World where
  environ : List (String × String)
  inClusterConfig : Except String RestConfig
  newForConfigError : RestConfig → Option String

/-- The function `os.Getenv`: the empty string for a variable that is not set. -/
def os.Getenv (w : World) (key : String) : String :=
  (w.environ.lookup key).getD ""

/-- The steps `main` performs, in program order. -/
inductive MainStep where
  | fatal (entry : LogEntry)
  | inClusterConfig
  | newForConfig (config : RestConfig)
  | newLeaseLock (lock : LeaseLock)
  | withCancel
  | signalNotify
  | goSignalHandler
  | goMonitor
  | runOrDie (lec : LeaderElectionConfig)
  | printf (entry : LogEntry)
deriving DecidableEq, Repr

/-- Steps that create a client, the lock or the election loop. -/
def MainStep.createsClientLockOrLoop : MainStep → Bool
  | .inClusterConfig => true
  | .newForConfig _ => true
  | .newLeaseLock _ => true
  | .runOrDie _ => true
  | _ => false

/-- The lock `main` builds. -/
def mainLock (podName leaseLockName leaseLockNamespace : String) (clientset : Clientset) :
    LeaseLock :=
  { LeaseMeta := { Name := leaseLockName, Namespace := leaseLockNamespace }
    Client := clientset
    LockConfig := { Identity := podName } }

/-- The configuration `main` passes to `leaderelection.RunOrDie`. -/
def mainElectionConfig (lock : LeaseLock) : LeaderElectionConfig :=
  { Lock := lock
    ReleaseOnCancel := true
    LeaseDuration := 15 * time.Second
    RenewDeadline := 10 * time.Second
    RetryPeriod := 2 * time.Second }

/-- The function `main`, as the list of steps it performs; `log.Fatal` ends
the process, so nothing follows a `fatal` step. The steps after `runOrDie`
are those of a run in which `RunOrDie` returns. -/
def main (w : World) : List MainStep :=
  let podName := os.Getenv w "POD_NAME"
  if podName = "" then
    [.fatal { format := "POD_NAME environment variable must be set", args := [] }]
  else
    let namespace_ :=
      if os.Getenv w "NAMESPACE" = "" then "leader-election-demo" else os.Getenv w "NAMESPACE"
    match w.inClusterConfig with
    | .error err =>
      [.inClusterConfig,
       .fatal { format := "Failed to get in-cluster config: %v", args := [err] }]
    | .ok config =>
      match w.newForConfigError config with
      | some err =>
        [.inClusterConfig, .newForConfig config,
         .fatal { format := "Failed to create clientset: %v", args := [err] }]
      | none =>
        let leaseLockName := "leader-election-lease"
        let leaseLockNamespace := namespace_
        let lock := mainLock podName leaseLockName leaseLockNamespace (.forConfig config)
        [.inClusterConfig, .newForConfig config, .newLeaseLock lock,
         .withCancel, .signalNotify, .goSignalHandler, .goMonitor,
         .runOrDie (mainElectionConfig lock),
         .printf { format := "[%s] Leader election stopped", args := [podName] }]

/-! ## The configurations of `main_test.go` -/

/-- The lock every test builds: a lease in namespace `default` on the fake
clientset. -/
def testLock (leaseName identity : String) : LeaseLock :=
  { LeaseMeta := { Name := leaseName, Namespace := "default" }
    Client := .fake
    LockConfig := { Identity := identity } }

/-- The configuration every test passes to `leaderelection.RunOrDie`. -/
def testElectionConfig (lock : LeaseLock) : LeaderElectionConfig :=
  { Lock := lock
    ReleaseOnCancel := true
    LeaseDuration := 5 * time.Second
    RenewDeadline := 3 * time.Second
    RetryPeriod := 1 * time.Second }

/-- The configurations of the six tests, in file order; the test with several
candidates builds one per candidate (`test-pod-0`, `test-pod-1`, `test-pod-2`). -/
def testConfigs : List LeaderElectionConfig :=
  [ testElectionConfig (testLock "test-lease" "test-pod-1"),
    testElectionConfig (testLock "test-lease-multi" "test-pod-0"),
    testElectionConfig (testLock "test-lease-multi" "test-pod-1"),
    testElectionConfig (testLock "test-lease-multi" "test-pod-2"),
    testElectionConfig (testLock "test-lease-shutdown" "test-pod-1"),
    testElectionConfig (testLock "test-lease-callbacks" "test-pod-1"),
    testElectionConfig (testLock "test-lease-exists" "test-pod-1"),
    testElectionConfig (testLock "test-lease-timing" "test-pod-1") ]

/-- The ordering the engine requires of a configuration:
`retryPeriod < renewDeadline < leaseDuration`. -/
def TimingOrdered (lec : LeaderElectionConfig) : Prop :=
  lec.RetryPeriod < lec.RenewDeadline ∧ lec.RenewDeadline < lec.LeaseDuration

instance (lec : LeaderElectionConfig) : Decidable (TimingOrdered lec) := by
  unfold TimingOrdered; infer_instance

/-- Modelled from the spec: the check the engine makes when it is constructed
(the constructor is library code that `main.go` only calls). Section 6: the
ordering `retryPeriod < renewDeadline < leaseDuration` is enforced at
construction and a violation is a fatal configuration error. -/
def checkTiming (lec : LeaderElectionConfig) : Except String Unit :=
  if lec.RetryPeriod < lec.RenewDeadline ∧ lec.RenewDeadline < lec.LeaseDuration then .ok ()
  else .error "fatal configuration error: retryPeriod < renewDeadline < leaseDuration required"

/-! ## The claim about `currentLeader`, in the words of the specification -/

/-- The identity a leader notification announces: `id` for `OnNewLeader(id)`,
the pod's own name for `OnStartedLeading`; `OnStoppedLeading` announces none. -/
def announcedIdentity (podName : String) : CallbackCall → Option String
  | .startedLeading => some podName
  | .newLeader identity => some identity
  | .stoppedLeading => none

/-- The identity announced by the most recent leader notification of a
sequence, the empty string when the sequence has none. -/
def lastAnnounced (podName : String) (calls : List CallbackCall) : String :=
  ((calls.filterMap (announcedIdentity podName)).getLast?).getD ""

/-- A stretch of callback invocations that announces no identity other than
the pod's own through `OnNewLeader`. -/
def NoOtherLeader (podName : String) (calls : List CallbackCall) : Prop :=
  ∀ identity, CallbackCall.newLeader identity ∈ calls → identity = podName

/-- The shape of a sequence whose last `OnStartedLeading` is followed by no
announcement of another identity. -/
def LedLast (p : String) (calls : List CallbackCall) : Prop :=
  ∃ pre post, calls = pre ++ CallbackCall.startedLeading :: post ∧
    CallbackCall.startedLeading ∉ post ∧ NoOtherLeader p post

/-! ## The election engine, modelled from the specification

`main.go` and the tests hand their configuration to
`leaderelection.RunOrDie`, a library whose code is not part of the
repository. The definitions of this part follow sections 3 and 4 of the
specification. Times are whole seconds on the candidate's clock. -/

/-- Modelled from the spec: the LeaseRecord of section 3 (the engine and its
store are library code that `main.go` only calls); the version token is kept
by the store, next to the record. -/
structure LeaseRecord where
  holderIdentity : Option String
  leaseDurationSeconds : Nat
  acquireTime : Nat
  renewTime : Nat
  leaderTransitions : Nat
deriving DecidableEq, Repr

/-- Modelled from the spec: one persisted record of the LeaseStore (section
6): the lease's name and namespace, the record and its version token. -/
structure StoreEntry where
  key : ObjectMeta
  record : LeaseRecord
  version : Nat
deriving DecidableEq, Repr

/-- Modelled from the spec: the LeaseStore (section 4.1), the records it
holds; the engine never sees it but through `get`, `create` and `update`. -/
abbrev LeaseStore := List StoreEntry

/-- Modelled from the spec: the answers of `get` (section 4.1). -/
inductive GetResult where
  | found (record : LeaseRecord) (version : Nat)
  | notFound
  | storeError
deriving DecidableEq, Repr

/-- Modelled from the spec: the answers of `create` (section 4.1). -/
inductive CreateResult where
  | created (version : Nat)
  | alreadyExists
  | storeError
deriving DecidableEq, Repr

/-- Modelled from the spec: the answers of `update` (section 4.1). -/
inductive UpdateResult where
  | updated (newVersion : Nat)
  | conflict
  | storeError
deriving DecidableEq, Repr

/-- Modelled from the spec: the store's lookup of the entry persisted under a
name and namespace, if any. -/
def LeaseStore.entry (st : LeaseStore) (key : ObjectMeta) : Option StoreEntry :=
  st.find? (fun e => decide (e.key = key))

/-- Modelled from the spec: `get(name, namespace)` of section 4.1; an
unreachable store answers `StoreError`. -/
def LeaseStore.get (reachable : Bool) (st : LeaseStore) (key : ObjectMeta) : GetResult :=
  if reachable then
    match st.entry key with
    | some e => .found e.record e.version
    | none => .notFound
  else .storeError

/-- Modelled from the spec: `create(name, namespace, record)` of section 4.1:
the answer and the store afterwards. A new record gets version 1. -/
def LeaseStore.create (reachable : Bool) (st : LeaseStore) (key : ObjectMeta)
    (record : LeaseRecord) : CreateResult × LeaseStore :=
  if reachable then
    match st.entry key with
    | some _ => (.alreadyExists, st)
    | none => (.created 1, { key := key, record := record, version := 1 } :: st)
  else (.storeError, st)

/-- Modelled from the spec: `update(name, namespace, record, expectedVersion)`
of section 4.1, the compare-and-swap on the version: the answer and the store
afterwards. The update is refused with `Conflict` unless the stored version is
the expected one; an accepted update stores the record under the next version. -/
def LeaseStore.update (reachable : Bool) (st : LeaseStore) (key : ObjectMeta)
    (record : LeaseRecord) (expectedVersion : Nat) : UpdateResult × LeaseStore :=
  if reachable then
    match st.entry key with
    | some e =>
      if e.version = expectedVersion then
        (.updated (expectedVersion + 1),
         st.map (fun x =>
           if x.key = key then { x with record := record, version := expectedVersion + 1 }
           else x))
      else (.conflict, st)
    | none => (.conflict, st)
  else (.storeError, st)

/-- Modelled from the spec: the ElectionConfig of section 3. -/
structure ElectionConfig where
  identity : String
  lease : ObjectMeta
  leaseDuration : Nat
  renewDeadline : Nat
  retryPeriod : Nat
  releaseOnCancel : Bool
deriving DecidableEq, Repr

/-- The ElectionConfig that a `LeaderElectionConfig` of `main.go` or of the
tests stands for, its durations in whole seconds. -/
def LeaderElectionConfig.toElectionConfig (lec : LeaderElectionConfig) : ElectionConfig :=
  { identity := lec.Lock.LockConfig.Identity
    lease := lec.Lock.LeaseMeta
    leaseDuration := (lec.LeaseDuration / time.Second).toNat
    renewDeadline := (lec.RenewDeadline / time.Second).toNat
    retryPeriod := (lec.RetryPeriod / time.Second).toNat
    releaseOnCancel := lec.ReleaseOnCancel }

/-- Modelled from the spec: the states of the ElectionEngine (section 4.2). -/
inductive EngineState where
  | Unknown
  | Following
  | Leading
  | Released
deriving DecidableEq, Repr

/-- Modelled from the spec: the engine's private state: its state of section
4.2 and its ObservedState of section 3 (the record and version it last read
or wrote, the time of that, the holder it last announced through
`OnNewLeader`, the time of its last successful acquisition or renewal). The
flag "I am currently leading" is `state = Leading`. -/
structure Engine where
  state : EngineState
  observed : Option (LeaseRecord × Nat)
  observedAt : Nat
  lastHolder : Option String
  lastRenew : Nat
deriving DecidableEq, Repr

/-- Modelled from the spec: the engine at its start (section 3: created at
engine start), in state `Unknown`, with nothing observed or announced. -/
def Engine.initial : Engine :=
  { state := .Unknown, observed := none, observedAt := 0, lastHolder := none, lastRenew := 0 }

/-- Modelled from the spec: what surrounds one tick: the clock, whether the
store answers the read and the write of the tick, and what other candidates
do to the store between that read and that write. -/
structure TickEnv where
  now : Nat
  getReachable : Bool
  writeReachable : Bool
  interference : LeaseStore → LeaseStore

/-- A tick at the given time with the store reachable and no other candidate
writing between the read and the write. -/
def TickEnv.quiet (now : Nat) : TickEnv :=
  { now := now, getReachable := true, writeReachable := true, interference := fun st => st }

/-- Modelled from the spec: the CallbackDispatcher's delivery of `OnNewLeader`
(section 4.4). The engine fires `OnNewLeader` for the holder it has observed;
the dispatcher, which keeps the identity of its latest invocation, invokes
the callback whenever the observed holder differs from that identity, the
engine's own included, and never twice in a row with the same identity. A
record without holder announces nobody. -/
def Engine.announce (eng : Engine) (holder : Option String) : Engine × List CallbackCall :=
  match holder with
  | none => (eng, [])
  | some h =>
    if eng.lastHolder = some h then (eng, [])
    else ({ eng with lastHolder := some h }, [.newLeader h])

/-- Modelled from the spec: a tick whose store call ended in `StoreError`:
nothing changes, unless the engine is `Leading` and `renewDeadline` has
elapsed since its last successful renewal, when it transitions to `Following`
and `OnStoppedLeading` fires (section 4.2, renew-deadline rule). -/
def Engine.renewFailed (cfg : ElectionConfig) (now : Nat) (eng : Engine) :
    Engine × List CallbackCall :=
  if eng.state = .Leading ∧ eng.lastRenew + cfg.renewDeadline ≤ now then
    ({ eng with state := .Following }, [.stoppedLeading])
  else (eng, [])

/-- Modelled from the spec: the engine is, or becomes, `Following`;
`OnStoppedLeading` fires when it was `Leading` (section 4.4: once per
transition from `Leading`). -/
def Engine.follow (eng : Engine) : Engine × List CallbackCall :=
  ({ eng with state := .Following },
   if eng.state = .Leading then [.stoppedLeading] else [])

/-- Modelled from the spec: the CallbackDispatcher (sections 2 and 4.4): the
callbacks the engine fires at a transition are invoked in order, one after
the other; `OnStartedLeading` and `OnStoppedLeading` as fired, `OnNewLeader`
as `Engine.announce` delivers it. -/
def Engine.dispatch : Engine → List CallbackCall → Engine × List CallbackCall
  | eng, [] => (eng, [])
  | eng, .newLeader identity :: rest =>
    ((Engine.dispatch (eng.announce (some identity)).1 rest).1,
     (eng.announce (some identity)).2 ++
       (Engine.dispatch (eng.announce (some identity)).1 rest).2)
  | eng, call :: rest =>
    ((Engine.dispatch eng rest).1, call :: (Engine.dispatch eng rest).2)

/-- Modelled from the spec: a successful acquisition (rules 2 and 5 of section
4.2): the engine transitions to `Leading` and fires `OnStartedLeading` and
`OnNewLeader(self)`, which the CallbackDispatcher invokes. Rule 5 fires
`OnNewLeader(self)` without condition, rule 2 "if holder changed"; by section
4.4 the dispatcher does not invoke `OnNewLeader` twice in a row with the same
identity, so that in both rules it is invoked unless the engine's own
identity is the one of the latest invocation. -/
def Engine.acquired (cfg : ElectionConfig) (now : Nat) (eng : Engine)
    (record : LeaseRecord) (version : Nat) : Engine × List CallbackCall :=
  Engine.dispatch
    { eng with state := .Leading, observed := some (record, version), observedAt := now,
               lastRenew := now }
    [.startedLeading, .newLeader cfg.identity]

/-- Modelled from the spec: the engine becomes `Following` of the holder it
has just seen (rule 4 of section 4.2, and the refused `create` of rule 2):
`OnNewLeader` fires if that holder differs from the last one announced. -/
def Engine.followHolder (eng : Engine) (holder : Option String) :
    Engine × List CallbackCall :=
  let (eng1, stopped) := eng.follow
  let (eng2, calls) := eng1.announce holder
  (eng2, stopped ++ calls)

/-- Modelled from the spec: after a transition, `OnNewLeader` for the holder of
the record the tick has read (section 4.4: whenever the observed holder
differs from the last-known one), delivered by `Engine.announce`. -/
def Engine.observing (r : Engine × List CallbackCall) (holder : Option String) :
    Engine × List CallbackCall :=
  let (eng1, calls) := r.1.announce holder
  (eng1, r.2 ++ calls)

/-- Modelled from the spec: the result of a tick: the engine and the callbacks
of a transition, and the store the tick leaves. -/
def withStore (r : Engine × List CallbackCall) (st : LeaseStore) :
    Engine × LeaseStore × List CallbackCall :=
  (r.1, st, r.2)

/-- Modelled from the spec: `tryAcquireOrRenew` of section 4.2, one tick of
the engine: the engine and the store afterwards and the callbacks fired, in
order. The five rules are followed as written. Where they are silent: a
record without holder is unheld (section 3) and is taken as an expired one
is, by rule 5; an engine that is not `Leading` and renews a record that
already names it (rule 3) has acquired the lease; `OnStoppedLeading` fires
for the engine that was `Leading` whenever it becomes `Following`; and in
every branch that has read a record, also when the update that follows is
refused, `OnNewLeader` is delivered for the holder read (section 4.4). -/
def tryAcquireOrRenew (cfg : ElectionConfig) (env : TickEnv) (eng : Engine) (st : LeaseStore) :
    Engine × LeaseStore × List CallbackCall :=
  match LeaseStore.get env.getReachable st cfg.lease with
  | .storeError => withStore (eng.renewFailed cfg env.now) st
  | .notFound =>
    -- rule 2
    match LeaseStore.create env.writeReachable (env.interference st) cfg.lease
        { holderIdentity := some cfg.identity, leaseDurationSeconds := cfg.leaseDuration,
          acquireTime := env.now, renewTime := env.now, leaderTransitions := 0 } with
    | (.created version, st1) =>
      withStore
        (eng.acquired cfg env.now
          { holderIdentity := some cfg.identity, leaseDurationSeconds := cfg.leaseDuration,
            acquireTime := env.now, renewTime := env.now, leaderTransitions := 0 } version)
        st1
    | (.alreadyExists, st1) =>
      withStore
        (eng.followHolder ((st1.entry cfg.lease).bind (fun e => e.record.holderIdentity))) st1
    | (.storeError, st1) => withStore (eng.renewFailed cfg env.now) st1
  | .found record version =>
    if record.holderIdentity = some cfg.identity then
      -- rule 3
      match LeaseStore.update env.writeReachable (env.interference st) cfg.lease
          { record with renewTime := env.now } version with
      | (.updated newVersion, st1) =>
        if eng.state = .Leading then
          withStore
            (Engine.observing
              ({ eng with observed := some ({ record with renewTime := env.now }, newVersion),
                          observedAt := env.now, lastRenew := env.now }, [])
              record.holderIdentity)
            st1
        else
          withStore
            (Engine.acquired cfg env.now eng { record with renewTime := env.now } newVersion)
            st1
      | (.conflict, st1) =>
        withStore
          (Engine.followHolder
            { eng with observed := some (record, version), observedAt := env.now }
            record.holderIdentity)
          st1
      | (.storeError, st1) =>
        withStore
          (Engine.observing
            (Engine.renewFailed cfg env.now
              { eng with observed := some (record, version), observedAt := env.now })
            record.holderIdentity)
          st1
    else if record.holderIdentity.isSome ∧
        env.now < record.renewTime + record.leaseDurationSeconds then
      -- rule 4
      withStore
        (Engine.followHolder
          { eng with observed := some (record, version), observedAt := env.now }
          record.holderIdentity)
        st
    else
      -- rule 5
      match LeaseStore.update env.writeReachable (env.interference st) cfg.lease
          { record with holderIdentity := some cfg.identity, acquireTime := env.now,
                        renewTime := env.now,
                        leaderTransitions := record.leaderTransitions + 1 } version with
      | (.updated newVersion, st1) =>
        withStore
          (Engine.acquired cfg env.now eng
            { record with holderIdentity := some cfg.identity, acquireTime := env.now,
                          renewTime := env.now,
                          leaderTransitions := record.leaderTransitions + 1 } newVersion)
          st1
      | (.conflict, st1) =>
        withStore
          (Engine.followHolder
            { eng with observed := some (record, version), observedAt := env.now }
            record.holderIdentity)
          st1
      | (.storeError, st1) =>
        withStore
          (Engine.observing
            (Engine.renewFailed cfg env.now
              { eng with observed := some (record, version), observedAt := env.now })
            record.holderIdentity)
          st1

/-- Modelled from the spec: the end of the engine on cancellation of its
governing lifetime (section 4.3): a `Leading` engine with `releaseOnCancel`
makes one best-effort `update` that clears `holderIdentity`, presenting the
version it last observed and ignoring `Conflict` and `StoreError`; then the
engine is `Released`, and `OnStoppedLeading` fires for the engine that was
`Leading` (sections 4.4 and 8). -/
def release (cfg : ElectionConfig) (writeReachable : Bool) (eng : Engine) (st : LeaseStore) :
    Engine × LeaseStore × List CallbackCall :=
  if eng.state = .Leading then
    let st1 :=
      if cfg.releaseOnCancel then
        match eng.observed with
        | some (record, version) =>
          (LeaseStore.update writeReachable st cfg.lease
            { record with holderIdentity := none } version).2
        | none => st
      else st
    ({ eng with state := .Released }, st1, [.stoppedLeading])
  else ({ eng with state := .Released }, st, [])

/-- Modelled from the spec: what reaches the engine and its store in the
course of a run: a tick of the Scheduler (section 4.3), the cancellation of
the governing lifetime, or the writes of other candidates to the shared store
between two ticks of this one. -/
inductive Signal where
  | tick (env : TickEnv)
  | cancel (writeReachable : Bool)
  | others (act : LeaseStore → LeaseStore)

/-- Modelled from the spec: one step of the Scheduler (section 4.3): a tick
runs `tryAcquireOrRenew`, a cancellation runs the release; a `Released`
engine has stopped ticking, its run is over. -/
def Scheduler.step (cfg : ElectionConfig) (sig : Signal) (eng : Engine) (st : LeaseStore) :
    Engine × LeaseStore × List CallbackCall :=
  if eng.state = .Released then (eng, st, [])
  else
    match sig with
    | .tick env => tryAcquireOrRenew cfg env eng st
    | .cancel writeReachable => release cfg writeReachable eng st
    | .others act => (eng, act st, [])

/-- Modelled from the spec: the timing loop of the Scheduler (section 4.3),
one signal after the other, no two ticks overlapping: the engine and the
store after a sequence of signals, and the callbacks fired, in order. -/
def deliver (cfg : ElectionConfig) :
    List Signal → Engine → LeaseStore → Engine × LeaseStore × List CallbackCall
  | [], eng, st => (eng, st, [])
  | sig :: rest, eng, st =>
    let (eng1, st1, calls) := Scheduler.step cfg sig eng st
    let (eng2, st2, later) := deliver cfg rest eng1 st1
    (eng2, st2, calls ++ later)

/-- Modelled from the spec: `run` of section 6, which blocks until the engine
is `Released`: over the signals delivered it has returned (`some`) when the
engine is `Released` after them, and not yet (`none`) otherwise. -/
def run (cfg : ElectionConfig) (signals : List Signal) (eng : Engine) (st : LeaseStore) :
    Option (Engine × LeaseStore × List CallbackCall) :=
  if (deliver cfg signals eng st).1.state = .Released then some (deliver cfg signals eng st)
  else none

/-- The identities passed to `OnNewLeader`, in order. -/
def announcedTo (calls : List CallbackCall) : List String :=
  calls.filterMap (fun c =>
    match c with
    | .newLeader identity => some identity
    | _ => none)

/-- A signal of a run in which the candidate is alone on the store: no other
candidate writes, between its ticks or within one. -/
def Signal.alone : Signal → Prop
  | .tick env => ∀ st, env.interference st = st
  | .cancel _ => True
  | .others _ => False

/-- A tick at the given time whose read is answered and whose write is
refused with `StoreError`. -/
def TickEnv.writeRefused (now : Nat) : TickEnv :=
  { now := now, getReachable := true, writeReachable := false, interference := fun st => st }

/-- The election configuration of the candidate `test-pod-1` of the callbacks
test, on the lease `test-lease-callbacks`. -/
def callbacksCandidate : ElectionConfig :=
  (testElectionConfig (testLock "test-lease-callbacks" "test-pod-1")).toElectionConfig

/-- A store on which the lease `test-lease-callbacks` already names
`test-pod-1` as its holder, as an earlier run of the pod of that name leaves
it. -/
def ownRecordStore : LeaseStore :=
  [{ key := { Name := "test-lease-callbacks", Namespace := "default" },
     record := { holderIdentity := some "test-pod-1", leaseDurationSeconds := 5,
                 acquireTime := 0, renewTime := 0, leaderTransitions := 0 },
     version := 1 }]

/-- What one step does to the announcements: it fires no `OnNewLeader`, or it
fires one, with an identity other than the one last announced, which becomes
the one last announced. -/
def AnnouncesAtMostOne (before after : Option String) (calls : List CallbackCall) : Prop :=
  (announcedTo calls = [] ∧ after = before) ∨
  (∃ x, announcedTo calls = [x] ∧ before ≠ some x ∧ after = some x)

/-! ## Several candidates on one store, modelled from the specification -/

/-- Modelled from the spec: one of the candidates that contend for a lease on
one store (section 8): its configuration, its engine, and the time of its
latest tick while it runs. -/
structure Candidate where
  cfg : ElectionConfig
  engine : Engine
  lastTick : Option Nat
deriving DecidableEq, Repr

/-- The candidates of an election, in a fixed order. -/
abbrev Cluster := List Candidate

/-- The cluster at its start: every engine in its initial state, no tick yet. -/
def Cluster.start (cfgs : List ElectionConfig) : Cluster :=
  cfgs.map (fun cfg => { cfg := cfg, engine := Engine.initial, lastTick := none })

/-- Modelled from the spec: what happens in a cluster, one event at a time:
the Scheduler of one candidate ticks, at a time of the clock the candidates
share and with the store answering or not the read and the write of the
tick, or the lifetime of one candidate is cancelled. The candidates run
concurrently: their events interleave in any order. -/
inductive ClusterEvent where
  | tick (candidate : Nat) (now : Nat) (getReachable : Bool) (writeReachable : Bool)
  | cancel (candidate : Nat) (writeReachable : Bool)
deriving DecidableEq, Repr

/-- The candidate an event belongs to, by its position in the cluster. -/
def ClusterEvent.candidate : ClusterEvent → Nat
  | .tick candidate _ _ _ => candidate
  | .cancel candidate _ => candidate

/-- The signal an event delivers to its candidate's engine; the writes of the
other candidates are events of their own. -/
def ClusterEvent.signal : ClusterEvent → Signal
  | .tick _ now getReachable writeReachable =>
    .tick { now := now, getReachable := getReachable, writeReachable := writeReachable,
            interference := fun st => st }
  | .cancel _ writeReachable => .cancel writeReachable

/-- The time of the event when it is a tick. -/
def ClusterEvent.tickTime : ClusterEvent → Option Nat
  | .tick _ now _ _ => some now
  | .cancel _ _ => none

/-- Modelled from the spec: one event of the cluster: the candidate's engine
takes `Scheduler.step` on the shared store; the other engines are untouched. -/
def Cluster.step (ev : ClusterEvent) (cl : Cluster) (st : LeaseStore) : Cluster × LeaseStore :=
  match cl[ev.candidate]? with
  | none => (cl, st)
  | some cand =>
    (cl.set ev.candidate
      { cand with engine := (Scheduler.step cand.cfg ev.signal cand.engine st).1,
                  lastTick := ev.tickTime },
     (Scheduler.step cand.cfg ev.signal cand.engine st).2.1)

/-- Every state the cluster and the store go through under a sequence of
events, the first and the last included. -/
def Cluster.states : List ClusterEvent → Cluster → LeaseStore → List (Cluster × LeaseStore)
  | [], cl, st => [(cl, st)]
  | ev :: rest, cl, st =>
    (cl, st) :: Cluster.states rest (Cluster.step ev cl st).1 (Cluster.step ev cl st).2

/-- The cluster and the store after a sequence of events. -/
def Cluster.after : List ClusterEvent → Cluster → LeaseStore → Cluster × LeaseStore
  | [], cl, st => (cl, st)
  | ev :: rest, cl, st => Cluster.after rest (Cluster.step ev cl st).1 (Cluster.step ev cl st).2

/-- The number of candidates whose engine is in state `Leading`. -/
def Cluster.leaders (cl : Cluster) : Nat :=
  (cl.filter (fun cand => decide (cand.engine.state = .Leading))).length

/-- At a tick at time `now`, no running candidate has stalled: the times of
the clock do not go back, and the latest tick of every candidate that has
ticked and was not cancelled is at most `gap` seconds old. -/
def Cluster.onTime (gap : Nat) (now : Nat) (cl : Cluster) : Bool :=
  cl.all (fun cand =>
    match cand.lastTick with
    | some last => decide (last ≤ now ∧ now ≤ last + gap)
    | none => true)

/-- The schedule of a sequence of events lets no running candidate stall for
more than `gap` seconds: `Cluster.onTime` holds at every tick. -/
def Cluster.timely (gap : Nat) : List ClusterEvent → Cluster → LeaseStore → Bool
  | [], _, _ => true
  | ev :: rest, cl, st =>
    (match ev.tickTime with
     | some now => Cluster.onTime gap now cl
     | none => true) &&
    Cluster.timely gap rest (Cluster.step ev cl st).1 (Cluster.step ev cl st).2

/-- The configurations of the three candidates of the test with several
candidates, on the lease `test-lease-multi`. -/
def multiCandidates : List ElectionConfig :=
  [ (testElectionConfig (testLock "test-lease-multi" "test-pod-0")).toElectionConfig,
    (testElectionConfig (testLock "test-lease-multi" "test-pod-1")).toElectionConfig,
    (testElectionConfig (testLock "test-lease-multi" "test-pod-2")).toElectionConfig ]

/-- The three candidates start together and each ticks once at time 0; then
`test-pod-0`, which has acquired the lease, stalls, while the two others go
on ticking every second up to time 5, when the lease of 5s has expired. -/
def stalledLeaderEvents : List ClusterEvent :=
  [ .tick 0 0 true true, .tick 1 0 true true, .tick 2 0 true true,
    .tick 1 1 true true, .tick 2 1 true true,
    .tick 1 2 true true, .tick 2 2 true true,
    .tick 1 3 true true, .tick 2 3 true true,
    .tick 1 4 true true, .tick 2 4 true true,
    .tick 1 5 true true ]

/-- The three candidates start together and each ticks every second, from
time 0 to time 6; the store fails `test-pod-0`, the first leader, from time 1
on. -/
def everySecondEvents : List ClusterEvent :=
  (List.range 7).flatMap (fun t =>
    [ .tick 0 t (decide (t = 0)) (decide (t = 0)), .tick 1 t true true, .tick 2 t true true ])

/-- The lease record carries the lease duration the candidates share. -/
def StoreOK (key : ObjectMeta) (leaseDuration : Nat) (st : LeaseStore) : Prop :=
  ∀ e, LeaseStore.entry st key = some e → e.record.leaseDurationSeconds = leaseDuration

/-- The record an engine has observed carries the shared lease duration. -/
def ObservedOK (leaseDuration : Nat) (eng : Engine) : Prop :=
  ∀ record version, eng.observed = some (record, version) →
    record.leaseDurationSeconds = leaseDuration

/-- What a step of one candidate does to the lease. Either it writes nothing,
and an engine that is `Leading` after it was so before, with the same last
renewal, still short of its renew deadline at a tick; or it is a tick that
leaves the engine `Leading`, renewed at the time of the tick, the record in
the engine's name, having found the lease absent, in its own name, without
holder, or expired; or it is the release of a `Leading` engine. -/
def StepEffect (cfg : ElectionConfig) (tickTime : Option Nat) (eng : Engine) (st : LeaseStore)
    (r : Engine × LeaseStore × List CallbackCall) : Prop :=
  (r.2.1 = st ∧
    (r.1.state = .Leading →
      eng.state = .Leading ∧ r.1.lastRenew = eng.lastRenew ∧
      ∀ now, tickTime = some now → now < eng.lastRenew + cfg.renewDeadline)) ∨
  (∃ now, tickTime = some now ∧ r.1.state = .Leading ∧ r.1.lastRenew = now ∧
    (∃ e, LeaseStore.entry r.2.1 cfg.lease = some e ∧
      e.record.holderIdentity = some cfg.identity ∧ e.record.renewTime = now) ∧
    (∀ e, LeaseStore.entry st cfg.lease = some e →
      e.record.holderIdentity = some cfg.identity ∨ e.record.holderIdentity = none ∨
      e.record.renewTime + e.record.leaseDurationSeconds ≤ now)) ∨
  (eng.state = .Leading ∧ r.1.state = .Released)

/-- The candidates of a cluster contend for one lease with one lease duration,
each with a renew deadline that leaves `gap` seconds before the lease
expires, and no two of them under the same identity. -/
def Cluster.Contends (key : ObjectMeta) (leaseDuration gap : Nat) (cl : Cluster) : Prop :=
  (∀ (j : Nat) (cand : Candidate), cl[j]? = some cand →
    cand.cfg.lease = key ∧ cand.cfg.leaseDuration = leaseDuration ∧
    0 < cand.cfg.renewDeadline ∧ cand.cfg.renewDeadline + gap ≤ leaseDuration) ∧
  (∀ (j k : Nat) (a b : Candidate), cl[j]? = some a → cl[k]? = some b →
    a.cfg.identity = b.cfg.identity → j = k)

/-- The invariant of a cluster whose candidates do not stall: the lease
record and the records observed carry the shared lease duration, and for
every candidate that is `Leading` the record names it as holder, with the
time of its last renewal, its latest tick being short of its renew deadline. -/
def Cluster.Safe (key : ObjectMeta) (leaseDuration : Nat) (cl : Cluster) (st : LeaseStore) :
    Prop :=
  StoreOK key leaseDuration st ∧
  (∀ (j : Nat) (cand : Candidate), cl[j]? = some cand →
    ObservedOK leaseDuration cand.engine) ∧
  (∀ (j : Nat) (cand : Candidate), cl[j]? = some cand → cand.engine.state = .Leading →
    ∃ e last, LeaseStore.entry st key = some e ∧
      e.record.holderIdentity = some cand.cfg.identity ∧
      e.record.renewTime = cand.engine.lastRenew ∧
      cand.lastTick = some last ∧
      last < cand.engine.lastRenew + cand.cfg.renewDeadline)

/-! ## Theorems -/

/-! ### Lemmas on the callbacks of `main` -/

theorem invokeAll_nil (p : String) (s : MainState) : invokeAll p [] s = s := rfl

theorem invokeAll_cons (p : String) (c : CallbackCall) (calls : List CallbackCall)
    (s : MainState) : invokeAll p (c :: calls) s = invokeAll p calls (invoke p c s) := rfl

theorem invokeAll_append (p : String) (xs ys : List CallbackCall) (s : MainState) :
    invokeAll p (xs ++ ys) s = invokeAll p ys (invokeAll p xs s) := by
  simp [invokeAll, List.foldl_append]

theorem currentLeader_startedLeading (p : String) (s : MainState) :
    (invoke p .startedLeading s).currentLeader = p := rfl

theorem currentLeader_stoppedLeading (p : String) (s : MainState) :
    (invoke p .stoppedLeading s).currentLeader = s.currentLeader := rfl

theorem currentLeader_newLeader_self (p : String) (s : MainState) :
    (invoke p (.newLeader p) s).currentLeader = s.currentLeader := by
  simp [invoke, OnNewLeader]

theorem currentLeader_newLeader_other (p identity : String) (s : MainState)
    (h : identity ≠ p) : (invoke p (.newLeader identity) s).currentLeader = identity := by
  simp [invoke, OnNewLeader, h, MainState.printf]

theorem NoOtherLeader.tail {p : String} {c : CallbackCall} {calls : List CallbackCall}
    (h : NoOtherLeader p (c :: calls)) : NoOtherLeader p calls :=
  fun identity hmem => h identity (List.mem_cons_of_mem _ hmem)

/-- While only the pod's own identity is announced, `currentLeader` stays the
pod's name. -/
theorem currentLeader_kept (p : String) (calls : List CallbackCall) :
    ∀ s : MainState, s.currentLeader = p → NoOtherLeader p calls →
      (invokeAll p calls s).currentLeader = p := by
  induction calls with
  | nil => intro s hs _; simpa [invokeAll_nil] using hs
  | cons c rest ih =>
    intro s hs hq
    rw [invokeAll_cons]
    apply ih _ _ hq.tail
    cases c with
    | startedLeading => rfl
    | stoppedLeading => simpa [currentLeader_stoppedLeading] using hs
    | newLeader identity =>
      have hid : identity = p := hq identity (List.mem_cons_self _ _)
      subst hid
      simpa [currentLeader_newLeader_self] using hs

theorem ledLast_cons {p : String} {calls : List CallbackCall} (c : CallbackCall)
    (h : LedLast p calls) : LedLast p (c :: calls) := by
  obtain ⟨pre, post, hcalls, hnot, hq⟩ := h
  exact ⟨c :: pre, post, by simp [hcalls], hnot, hq⟩

/-- A stretch that announces no other identity and contains `OnStartedLeading`
splits at its last `OnStartedLeading`. -/
theorem ledLast_of_mem (p : String) (calls : List CallbackCall) :
    CallbackCall.startedLeading ∈ calls → NoOtherLeader p calls → LedLast p calls := by
  induction calls with
  | nil => intro h; simp at h
  | cons c rest ih =>
    intro hmem hq
    by_cases hrest : CallbackCall.startedLeading ∈ rest
    · exact ledLast_cons c (ih hrest hq.tail)
    · have hc : c = CallbackCall.startedLeading := by
        rcases List.mem_cons.mp hmem with h | h
        · exact h.symm
        · exact absurd h hrest
      subst hc
      exact ⟨[], rest, by simp, hrest, hq.tail⟩

theorem currentLeader_of_ledLast (p : String) (calls : List CallbackCall) (s : MainState)
    (h : LedLast p calls) : (invokeAll p calls s).currentLeader = p := by
  obtain ⟨pre, post, hcalls, _, hq⟩ := h
  subst hcalls
  rw [invokeAll_append, invokeAll_cons]
  exact currentLeader_kept p post _ rfl hq

/-- From any starting state: `currentLeader` ends as the pod's name exactly
when the sequence has the shape `LedLast`, or the state already held the
pod's name and no other identity was announced. -/
theorem currentLeader_eq_podName_iff (p : String) (calls : List CallbackCall) :
    ∀ s : MainState, (invokeAll p calls s).currentLeader = p ↔
      LedLast p calls ∨ (s.currentLeader = p ∧ NoOtherLeader p calls) := by
  induction calls with
  | nil =>
    intro s
    constructor
    · intro h
      exact Or.inr ⟨by simpa [invokeAll_nil] using h, fun _ hm => by simp at hm⟩
    · rintro (h | ⟨h, _⟩)
      · exact currentLeader_of_ledLast p [] s h
      · simpa [invokeAll_nil] using h
  | cons c rest ih =>
    intro s
    constructor
    · intro h
      rw [invokeAll_cons] at h
      rcases (ih _).mp h with hl | ⟨hcur, hq⟩
      · exact Or.inl (ledLast_cons c hl)
      · cases c with
        | startedLeading =>
          left
          by_cases hrest : CallbackCall.startedLeading ∈ rest
          · exact ledLast_cons _ (ledLast_of_mem p rest hrest hq)
          · exact ⟨[], rest, by simp, hrest, hq⟩
        | stoppedLeading =>
          right
          refine ⟨by simpa [currentLeader_stoppedLeading] using hcur, ?_⟩
          intro identity hm
          rcases List.mem_cons.mp hm with h1 | h1
          · cases h1
          · exact hq identity h1
        | newLeader identity =>
          by_cases hid : identity = p
          · subst hid
            right
            refine ⟨by simpa [currentLeader_newLeader_self] using hcur, ?_⟩
            intro identity2 hm
            rcases List.mem_cons.mp hm with h1 | h1
            · cases h1; rfl
            · exact hq identity2 h1
          · rw [currentLeader_newLeader_other p identity s hid] at hcur
            exact absurd hcur hid
    · rintro (h | ⟨h, hq⟩)
      · exact currentLeader_of_ledLast p _ s h
      · exact currentLeader_kept p _ s h hq

theorem getLast?_getD_cons (x d : String) (l : List String) :
    ((x :: l).getLast?).getD d = (l.getLast?).getD x := by
  cases l with
  | nil => rfl
  | cons y t =>
    rw [List.getLast?_cons_cons, List.getLast?_eq_getLast _ (List.cons_ne_nil y t)]
    rfl

/-- From any starting state, `currentLeader` ends as the last identity
announced by a notification other than `OnNewLeader` of the pod's own name,
and as its starting value when there is none. -/
theorem currentLeader_eq_last (p : String) (calls : List CallbackCall) :
    ∀ s : MainState, (invokeAll p calls s).currentLeader =
      (((calls.filter (fun c => decide (c ≠ CallbackCall.newLeader p))).filterMap
        (announcedIdentity p)).getLast?).getD s.currentLeader := by
  induction calls with
  | nil => intro s; rfl
  | cons c rest ih =>
    intro s
    rw [invokeAll_cons, ih]
    cases c with
    | startedLeading =>
      simp [List.filter_cons, announcedIdentity, getLast?_getD_cons,
        currentLeader_startedLeading]
    | stoppedLeading =>
      simp [List.filter_cons, announcedIdentity, currentLeader_stoppedLeading]
    | newLeader identity =>
      by_cases hid : identity = p
      · subst hid
        simp [List.filter_cons, currentLeader_newLeader_self]
      · simp [List.filter_cons, hid, announcedIdentity, getLast?_getD_cons,
          currentLeader_newLeader_other p identity s hid]

/-! ### The claims on `main.go` -/

/-- C2: when `POD_NAME` is unset or empty, `main` ends with the fatal log call
of its first check and performs no other step, so no client, lock or election
loop is created; conversely every step of `main` that creates a client, the
lock or the election loop happens only with a non-empty `POD_NAME`, and the
lock handed to `RunOrDie` carries that non-empty name as its identity. -/
theorem main_fatal_on_empty_pod_name (w : World) :
    (os.Getenv w "POD_NAME" = "" →
      main w =
        [MainStep.fatal
          { format := "POD_NAME environment variable must be set", args := [] }]) ∧
    (∀ step ∈ main w, step.createsClientLockOrLoop = true → os.Getenv w "POD_NAME" ≠ "") ∧
    (∀ lec, MainStep.runOrDie lec ∈ main w →
      lec.Lock.LockConfig.Identity = os.Getenv w "POD_NAME" ∧
      lec.Lock.LockConfig.Identity ≠ "" ∧
      MainStep.newLeaseLock lec.Lock ∈ main w) := by
  refine ⟨?_, ?_, ?_⟩
  · intro h
    simp [main, h]
  · intro step hstep hcreates hempty
    simp [main, hempty] at hstep
    subst hstep
    simp [MainStep.createsClientLockOrLoop] at hcreates
  · intro lec hlec
    by_cases hempty : os.Getenv w "POD_NAME" = ""
    · simp [main, hempty] at hlec
    · unfold main at hlec ⊢
      simp only [hempty, if_false] at hlec ⊢
      split at hlec
      · simp at hlec
      · split at hlec
        · simp at hlec
        · simp at hlec
          subst hlec
          simp [mainElectionConfig, mainLock, hempty]

/-- Witness of C2: with no variable set `main` is the single fatal step, and
with `POD_NAME=pod-a` in a healthy cluster the step that runs the election
is reached with a non-empty name. -/
theorem main_fatal_on_empty_pod_name_witness :
    main { environ := [], inClusterConfig := .ok { host := "h" },
           newForConfigError := fun _ => none } =
      [MainStep.fatal
        { format := "POD_NAME environment variable must be set", args := [] }] ∧
    os.Getenv { environ := [("POD_NAME", "pod-a")], inClusterConfig := .ok { host := "h" },
                newForConfigError := fun _ => none } "POD_NAME" ≠ "" :=
  ⟨(main_fatal_on_empty_pod_name _).1 (by decide),
   (main_fatal_on_empty_pod_name
      { environ := [("POD_NAME", "pod-a")], inClusterConfig := .ok { host := "h" },
        newForConfigError := fun _ => none }).2.1
      MainStep.inClusterConfig (by simp [main, os.Getenv]) rfl⟩

/-- C3: the configuration `main` passes to `RunOrDie` has RetryPeriod 2s,
RenewDeadline 10s and LeaseDuration 15s, every configuration of the tests has
1s, 3s and 5s, and each of them satisfies
`retryPeriod < renewDeadline < leaseDuration`, so the construction check
does not end in its fatal branch for any of them. -/
theorem timing_ordered_main_and_tests :
    (∀ lock : LeaseLock,
      (mainElectionConfig lock).RetryPeriod = 2 * time.Second ∧
      (mainElectionConfig lock).RenewDeadline = 10 * time.Second ∧
      (mainElectionConfig lock).LeaseDuration = 15 * time.Second ∧
      TimingOrdered (mainElectionConfig lock) ∧
      checkTiming (mainElectionConfig lock) = .ok ()) ∧
    (∀ (w : World) (lec : LeaderElectionConfig), MainStep.runOrDie lec ∈ main w →
      TimingOrdered lec ∧ checkTiming lec = .ok ()) ∧
    (∀ lec ∈ testConfigs,
      lec.RetryPeriod = 1 * time.Second ∧
      lec.RenewDeadline = 3 * time.Second ∧
      lec.LeaseDuration = 5 * time.Second ∧
      TimingOrdered lec ∧
      checkTiming lec = .ok ()) := by
  have hmain : ∀ lock : LeaseLock,
      TimingOrdered (mainElectionConfig lock) ∧
      checkTiming (mainElectionConfig lock) = .ok () := by
    intro lock
    constructor
    · simp [TimingOrdered, mainElectionConfig, time.Second]
    · simp [checkTiming, mainElectionConfig, time.Second]
  refine ⟨fun lock => ⟨rfl, rfl, rfl, hmain lock⟩, ?_, ?_⟩
  · intro w lec hlec
    by_cases hempty : os.Getenv w "POD_NAME" = ""
    · simp [main, hempty] at hlec
    · unfold main at hlec
      simp only [hempty, if_false] at hlec
      split at hlec
      · simp at hlec
      · split at hlec
        · simp at hlec
        · simp at hlec
          subst hlec
          exact hmain _
  · intro lec hlec
    simp only [testConfigs, List.mem_cons, List.mem_singleton, List.not_mem_nil, or_false] at hlec
    rcases hlec with h | h | h | h | h | h | h | h <;> subst h <;>
      simp [TimingOrdered, checkTiming, testElectionConfig, time.Second]

/-- Witness of C3 at the configuration of the first test. -/
theorem timing_ordered_main_and_tests_witness :
    TimingOrdered (testElectionConfig (testLock "test-lease" "test-pod-1")) ∧
    checkTiming (testElectionConfig (testLock "test-lease" "test-pod-1")) = .ok () :=
  (timing_ordered_main_and_tests.2.2
    (testElectionConfig (testLock "test-lease" "test-pod-1"))
    (by simp [testConfigs])).2.2.2

/-- C7 as stated fails: for the pod `pod-a`, after `OnNewLeader("pod-b")` and
then `OnNewLeader("pod-a")` the most recent notification announces `pod-a`,
yet `currentLeader` is `pod-b`, because `OnNewLeader` returns at once for the
pod's own name. -/
theorem currentLeader_misses_own_name :
    "pod-a" ≠ "" ∧
    (invokeAll "pod-a" [.newLeader "pod-b", .newLeader "pod-a"]
      MainState.initial).currentLeader = "pod-b" ∧
    lastAnnounced "pod-a" [.newLeader "pod-b", .newLeader "pod-a"] = "pod-a" := by
  decide

/-- C7, amended: for every pod name and every finite sequence of callback
invocations applied in order to the initial state, `currentLeader` ends as
the identity announced by the most recent notification of the sequence that
is not `OnNewLeader` of the pod's own name, and is empty when the sequence
has no such notification. -/
theorem currentLeader_tracks_last_announced (p : String) (calls : List CallbackCall) :
    (invokeAll p calls MainState.initial).currentLeader =
      lastAnnounced p (calls.filter (fun c => decide (c ≠ CallbackCall.newLeader p))) := by
  rw [currentLeader_eq_last p calls MainState.initial]
  rfl

/-- C8: for a non-empty pod name and every finite sequence of callback
invocations from the initial state, `currentLeader` is the pod's name
afterwards exactly when `OnStartedLeading` occurs in the sequence and no
`OnNewLeader(id)` with another identity follows its last occurrence;
`OnStoppedLeading` and `OnNewLeader` of the pod's own name leave
`currentLeader` unchanged, so once it is the pod's name it stays so until
another identity is announced. -/
theorem currentLeader_self_iff (p : String) (hp : p ≠ "") (calls : List CallbackCall) :
    ((invokeAll p calls MainState.initial).currentLeader = p ↔
      ∃ pre post, calls = pre ++ CallbackCall.startedLeading :: post ∧
        CallbackCall.startedLeading ∉ post ∧
        ∀ identity, CallbackCall.newLeader identity ∈ post → identity = p) ∧
    (∀ s : MainState, (invoke p .stoppedLeading s).currentLeader = s.currentLeader) ∧
    (∀ s : MainState, (invoke p (.newLeader p) s).currentLeader = s.currentLeader) ∧
    (∀ (s : MainState) (later : List CallbackCall), s.currentLeader = p →
      (∀ identity, CallbackCall.newLeader identity ∈ later → identity = p) →
      (invokeAll p later s).currentLeader = p) := by
  refine ⟨?_, currentLeader_stoppedLeading p, currentLeader_newLeader_self p,
    fun s later hs hq => currentLeader_kept p later s hs hq⟩
  rw [currentLeader_eq_podName_iff p calls MainState.initial]
  constructor
  · rintro (h | ⟨h, _⟩)
    · exact h
    · exact absurd h.symm hp
  · intro h
    exact Or.inl h

/-- Witness of C8 for the pod `pod-a` that started and then stopped leading. -/
theorem currentLeader_self_iff_witness :
    "pod-a" ≠ "" ∧
    (invokeAll "pod-a" [.startedLeading, .stoppedLeading]
      MainState.initial).currentLeader = "pod-a" :=
  ⟨by decide,
   ((currentLeader_self_iff "pod-a" (by decide) [.startedLeading, .stoppedLeading]).1).mpr
     ⟨[], [.stoppedLeading], rfl, by decide, by
       intro identity h
       simp at h⟩⟩

/-- C9: one tick of the status monitor never changes `currentLeader`; it logs
the leader line exactly when `currentLeader` is the pod's name, logs the
new-leader line with `currentLeader` exactly when `currentLeader` is neither
the pod's name nor empty, logs nothing exactly when `currentLeader` differs
from the pod's name and is empty; exactly one of the three happens. -/
theorem monitorTick_decision (p : String) (s : MainState) :
    (monitorTick p s).currentLeader = s.currentLeader ∧
    ((monitorTick p s).log = s.log ++ [leaderLine p] ↔ s.currentLeader = p) ∧
    ((monitorTick p s).log = s.log ++ [newLeaderLine p s.currentLeader] ↔
      s.currentLeader ≠ p ∧ s.currentLeader ≠ "") ∧
    ((monitorTick p s).log = s.log ↔ s.currentLeader ≠ p ∧ s.currentLeader = "") ∧
    (((monitorTick p s).log = s.log ++ [leaderLine p] ∧
        (monitorTick p s).log ≠ s.log ++ [newLeaderLine p s.currentLeader] ∧
        (monitorTick p s).log ≠ s.log) ∨
      ((monitorTick p s).log ≠ s.log ++ [leaderLine p] ∧
        (monitorTick p s).log = s.log ++ [newLeaderLine p s.currentLeader] ∧
        (monitorTick p s).log ≠ s.log) ∨
      ((monitorTick p s).log ≠ s.log ++ [leaderLine p] ∧
        (monitorTick p s).log ≠ s.log ++ [newLeaderLine p s.currentLeader] ∧
        (monitorTick p s).log = s.log)) := by
  have hfmt : "[%s] >>> I am now the LEADER <<<" ≠ "[%s] New leader elected: %s" := by decide
  by_cases h1 : s.currentLeader = p
  · simp [monitorTick, h1, MainState.printf, leaderLine, newLeaderLine, hfmt]
  · by_cases h2 : s.currentLeader = ""
    · have h3 : ¬ "" = p := fun h => h1 (h2.trans h)
      simp [monitorTick, h2, h3, MainState.printf, leaderLine, newLeaderLine]
    · simp [monitorTick, h1, h2, MainState.printf, leaderLine, newLeaderLine, hfmt.symm]

/-! ### The claims on the engine, on the model of the specification -/

theorem entry_cons_self (key : ObjectMeta) (record : LeaseRecord) (version : Nat)
    (st : LeaseStore) :
    LeaseStore.entry ({ key := key, record := record, version := version } :: st) key =
      some { key := key, record := record, version := version } := by
  simp [LeaseStore.entry, List.find?_cons]

/-- An accepted update leaves under the key the new record, with the new
version. -/
theorem entry_map_update (key : ObjectMeta) (record : LeaseRecord) (version : Nat) :
    ∀ (st : LeaseStore) (e : StoreEntry), LeaseStore.entry st key = some e →
      LeaseStore.entry
        (st.map (fun x => if x.key = key then { x with record := record, version := version }
          else x)) key = some { e with record := record, version := version } := by
  intro st
  induction st with
  | nil => intro e h; simp [LeaseStore.entry] at h
  | cons x xs ih =>
    intro e h
    by_cases hx : x.key = key
    · have hxe : x = e := by
        simpa [LeaseStore.entry, List.find?_cons, hx] using h
      subst hxe
      simp [LeaseStore.entry, List.find?_cons, hx]
    · have hrest : LeaseStore.entry xs key = some e := by
        simpa [LeaseStore.entry, List.find?_cons, hx] using h
      have := ih e hrest
      simpa [LeaseStore.entry, List.find?_cons, hx] using this

theorem acquired_eq (cfg : ElectionConfig) (now : Nat) (eng : Engine) (record : LeaseRecord)
    (version : Nat) :
    eng.acquired cfg now record version =
      ((Engine.announce
          { eng with state := .Leading, observed := some (record, version), observedAt := now,
                     lastRenew := now } (some cfg.identity)).1,
       CallbackCall.startedLeading ::
         (Engine.announce
          { eng with state := .Leading, observed := some (record, version), observedAt := now,
                     lastRenew := now } (some cfg.identity)).2) := by
  simp [Engine.acquired, Engine.dispatch]

/-- C4: for every identity and lease name and namespace, when the `get` of a
tick answers NotFound and the `create` that follows succeeds, the engine is
`Leading` after the tick, `OnStartedLeading` is among the callbacks fired, and
the store holds under that name and namespace a record whose holderIdentity
is the candidate's identity, whose acquireTime and renewTime are the time of
the tick and whose leaderTransitions is 0. -/
theorem acquires_absent_lease (cfg : ElectionConfig) (env : TickEnv) (eng : Engine)
    (st st1 : LeaseStore) (version : Nat)
    (hget : LeaseStore.get env.getReachable st cfg.lease = .notFound)
    (hcreate : LeaseStore.create env.writeReachable (env.interference st) cfg.lease
        { holderIdentity := some cfg.identity, leaseDurationSeconds := cfg.leaseDuration,
          acquireTime := env.now, renewTime := env.now, leaderTransitions := 0 } =
      (.created version, st1)) :
    (tryAcquireOrRenew cfg env eng st).1.state = .Leading ∧
    CallbackCall.startedLeading ∈ (tryAcquireOrRenew cfg env eng st).2.2 ∧
    ∃ record v,
      LeaseStore.get true (tryAcquireOrRenew cfg env eng st).2.1 cfg.lease = .found record v ∧
      record.holderIdentity = some cfg.identity ∧
      record.acquireTime = env.now ∧
      record.renewTime = env.now ∧
      record.leaderTransitions = 0 := by
  have hst1 : st1 =
      { key := cfg.lease,
        record :=
          { holderIdentity := some cfg.identity, leaseDurationSeconds := cfg.leaseDuration,
            acquireTime := env.now, renewTime := env.now, leaderTransitions := 0 },
        version := 1 } :: env.interference st := by
    unfold LeaseStore.create at hcreate
    split at hcreate
    · split at hcreate
      · simp at hcreate
      · simp at hcreate
        exact hcreate.2.symm
    · simp at hcreate
  have hstep : tryAcquireOrRenew cfg env eng st =
      ((eng.acquired cfg env.now
          { holderIdentity := some cfg.identity, leaseDurationSeconds := cfg.leaseDuration,
            acquireTime := env.now, renewTime := env.now, leaderTransitions := 0 } version).1,
        st1,
        (eng.acquired cfg env.now
          { holderIdentity := some cfg.identity, leaseDurationSeconds := cfg.leaseDuration,
            acquireTime := env.now, renewTime := env.now, leaderTransitions := 0 } version).2) := by
    simp only [tryAcquireOrRenew, hget, hcreate, withStore]
  rw [hstep]
  refine ⟨?_, ?_, ?_⟩
  · rw [acquired_eq]
    simp only [Engine.announce]
    split <;> rfl
  · rw [acquired_eq]
    exact List.mem_cons_self _ _
  · refine ⟨{ holderIdentity := some cfg.identity, leaseDurationSeconds := cfg.leaseDuration,
              acquireTime := env.now, renewTime := env.now, leaderTransitions := 0 },
      1, ?_, rfl, rfl, rfl, rfl⟩
    simp only [hst1, LeaseStore.get, entry_cons_self, if_true]

/-- Witness of C4: the candidate `test-pod-1` of the test on the lease
`test-lease-exists`, at its first tick on the empty store. -/
theorem acquires_absent_lease_witness :
    (tryAcquireOrRenew
      (testElectionConfig (testLock "test-lease-exists" "test-pod-1")).toElectionConfig
      (TickEnv.quiet 7) Engine.initial []).1.state = .Leading ∧
    CallbackCall.startedLeading ∈
      (tryAcquireOrRenew
        (testElectionConfig (testLock "test-lease-exists" "test-pod-1")).toElectionConfig
        (TickEnv.quiet 7) Engine.initial []).2.2 ∧
    ∃ record v,
      LeaseStore.get true
        (tryAcquireOrRenew
          (testElectionConfig (testLock "test-lease-exists" "test-pod-1")).toElectionConfig
          (TickEnv.quiet 7) Engine.initial []).2.1
        (testElectionConfig
          (testLock "test-lease-exists" "test-pod-1")).toElectionConfig.lease =
        .found record v ∧
      record.holderIdentity = some "test-pod-1" ∧
      record.acquireTime = 7 ∧
      record.renewTime = 7 ∧
      record.leaderTransitions = 0 :=
  acquires_absent_lease
    (testElectionConfig (testLock "test-lease-exists" "test-pod-1")).toElectionConfig
    (TickEnv.quiet 7) Engine.initial []
    [{ key := { Name := "test-lease-exists", Namespace := "default" },
       record := { holderIdentity := some "test-pod-1", leaseDurationSeconds := 5,
                   acquireTime := 7, renewTime := 7, leaderTransitions := 0 },
       version := 1 }]
    1 (by decide) (by decide)

/-! ### Lemmas on the announcements of the engine -/

theorem announces_announce (eng : Engine) (holder : Option String) :
    AnnouncesAtMostOne eng.lastHolder (eng.announce holder).1.lastHolder
      (eng.announce holder).2 := by
  unfold Engine.announce
  cases holder with
  | none => exact Or.inl ⟨rfl, rfl⟩
  | some h =>
    by_cases hl : eng.lastHolder = some h
    · simp only [hl, if_true]
      exact Or.inl ⟨rfl, rfl⟩
    · simp only [hl, if_false]
      exact Or.inr ⟨h, rfl, hl, rfl⟩

theorem announces_renewFailed (cfg : ElectionConfig) (now : Nat) (eng : Engine) :
    AnnouncesAtMostOne eng.lastHolder (eng.renewFailed cfg now).1.lastHolder
      (eng.renewFailed cfg now).2 := by
  unfold Engine.renewFailed
  split <;> exact Or.inl ⟨rfl, rfl⟩

theorem announces_follow (eng : Engine) :
    AnnouncesAtMostOne eng.lastHolder eng.follow.1.lastHolder eng.follow.2 := by
  unfold Engine.follow
  refine Or.inl ⟨?_, rfl⟩
  simp only []
  split <;> rfl

theorem announcedTo_append (xs ys : List CallbackCall) :
    announcedTo (xs ++ ys) = announcedTo xs ++ announcedTo ys := by
  simp [announcedTo, List.filterMap_append]

theorem observing_calls (r : Engine × List CallbackCall) (holder : Option String) :
    (Engine.observing r holder).2 = r.2 ++ (r.1.announce holder).2 := rfl

theorem announces_observing (before : Option String) (r : Engine × List CallbackCall)
    (holder : Option String) (hquiet : announcedTo r.2 = [])
    (hlast : r.1.lastHolder = before) :
    AnnouncesAtMostOne before (Engine.observing r holder).1.lastHolder
      (Engine.observing r holder).2 := by
  have h := announces_announce r.1 holder
  rw [hlast] at h
  show AnnouncesAtMostOne before (r.1.announce holder).1.lastHolder
    (r.2 ++ (r.1.announce holder).2)
  unfold AnnouncesAtMostOne at h ⊢
  rw [announcedTo_append, hquiet, List.nil_append]
  exact h

theorem renewFailed_quiet (cfg : ElectionConfig) (now : Nat) (eng : Engine) :
    (eng.renewFailed cfg now).1.lastHolder = eng.lastHolder ∧
    announcedTo (eng.renewFailed cfg now).2 = [] := by
  unfold Engine.renewFailed
  split <;> exact ⟨rfl, rfl⟩

theorem follow_quiet (eng : Engine) :
    eng.follow.1.lastHolder = eng.lastHolder ∧ announcedTo eng.follow.2 = [] := by
  unfold Engine.follow
  refine ⟨rfl, ?_⟩
  simp only []
  split <;> rfl

theorem announces_followHolder (eng : Engine) (holder : Option String) :
    AnnouncesAtMostOne eng.lastHolder (eng.followHolder holder).1.lastHolder
      (eng.followHolder holder).2 :=
  announces_observing eng.lastHolder eng.follow holder (follow_quiet eng).2 (follow_quiet eng).1

theorem announces_renewFailed_observing (cfg : ElectionConfig) (now : Nat) (eng : Engine)
    (holder : Option String) :
    AnnouncesAtMostOne eng.lastHolder
      (Engine.observing (eng.renewFailed cfg now) holder).1.lastHolder
      (Engine.observing (eng.renewFailed cfg now) holder).2 :=
  announces_observing eng.lastHolder _ holder (renewFailed_quiet cfg now eng).2
    (renewFailed_quiet cfg now eng).1

theorem announces_acquired (cfg : ElectionConfig) (now : Nat) (eng : Engine)
    (record : LeaseRecord) (version : Nat) :
    AnnouncesAtMostOne eng.lastHolder (eng.acquired cfg now record version).1.lastHolder
      (eng.acquired cfg now record version).2 := by
  have h := announces_announce
    { eng with state := .Leading, observed := some (record, version), observedAt := now,
               lastRenew := now } (some cfg.identity)
  rw [acquired_eq]
  exact h

/-- One tick fires at most one `OnNewLeader`, never with the identity last
announced. -/
theorem announces_tick (cfg : ElectionConfig) (env : TickEnv) (eng : Engine) (st : LeaseStore) :
    AnnouncesAtMostOne eng.lastHolder (tryAcquireOrRenew cfg env eng st).1.lastHolder
      (tryAcquireOrRenew cfg env eng st).2.2 := by
  unfold tryAcquireOrRenew
  split
  · exact announces_renewFailed cfg env.now eng
  · split
    · exact announces_acquired cfg env.now eng _ _
    · exact announces_followHolder eng _
    · exact announces_renewFailed cfg env.now eng
  · split
    · split
      · split
        · exact announces_observing eng.lastHolder _ _ rfl rfl
        · exact announces_acquired cfg env.now eng _ _
      · exact announces_followHolder _ _
      · exact announces_renewFailed_observing cfg env.now _ _
    · split
      · exact announces_followHolder _ _
      · split
        · exact announces_acquired cfg env.now eng _ _
        · exact announces_followHolder _ _
        · exact announces_renewFailed_observing cfg env.now _ _

theorem announces_release (cfg : ElectionConfig) (writeReachable : Bool) (eng : Engine)
    (st : LeaseStore) :
    AnnouncesAtMostOne eng.lastHolder (release cfg writeReachable eng st).1.lastHolder
      (release cfg writeReachable eng st).2.2 := by
  unfold release
  split <;> exact Or.inl ⟨rfl, rfl⟩

theorem announces_step (cfg : ElectionConfig) (sig : Signal) (eng : Engine) (st : LeaseStore) :
    AnnouncesAtMostOne eng.lastHolder (Scheduler.step cfg sig eng st).1.lastHolder
      (Scheduler.step cfg sig eng st).2.2 := by
  unfold Scheduler.step
  split
  · exact Or.inl ⟨rfl, rfl⟩
  · cases sig with
    | tick env => exact announces_tick cfg env eng st
    | cancel writeReachable => exact announces_release cfg writeReachable eng st
    | others act => exact Or.inl ⟨rfl, rfl⟩

theorem deliver_nil (cfg : ElectionConfig) (eng : Engine) (st : LeaseStore) :
    deliver cfg [] eng st = (eng, st, []) := rfl

theorem deliver_cons (cfg : ElectionConfig) (sig : Signal) (rest : List Signal) (eng : Engine)
    (st : LeaseStore) :
    deliver cfg (sig :: rest) eng st =
      ((deliver cfg rest (Scheduler.step cfg sig eng st).1 (Scheduler.step cfg sig eng st).2.1).1,
       (deliver cfg rest (Scheduler.step cfg sig eng st).1
         (Scheduler.step cfg sig eng st).2.1).2.1,
       (Scheduler.step cfg sig eng st).2.2 ++
         (deliver cfg rest (Scheduler.step cfg sig eng st).1
           (Scheduler.step cfg sig eng st).2.1).2.2) := rfl

/-- A `Released` engine takes no further signal. -/
theorem deliver_released (cfg : ElectionConfig) (signals : List Signal) :
    ∀ (eng : Engine) (st : LeaseStore), eng.state = .Released →
      deliver cfg signals eng st = (eng, st, []) := by
  induction signals with
  | nil => intro eng st _; rfl
  | cons sig rest ih =>
    intro eng st h
    have hstep : Scheduler.step cfg sig eng st = (eng, st, []) := by
      simp [Scheduler.step, h]
    rw [deliver_cons, hstep]
    simp [ih eng st h]

/-- Over any signals and from any engine and store: no two consecutive
`OnNewLeader` carry the same identity, and the first does not repeat the
identity the engine had announced last. -/
theorem announced_chain (cfg : ElectionConfig) (signals : List Signal) :
    ∀ (eng : Engine) (st : LeaseStore),
      List.Chain' (fun a b => a ≠ b) (announcedTo (deliver cfg signals eng st).2.2) ∧
      ∀ x, eng.lastHolder = some x →
        (announcedTo (deliver cfg signals eng st).2.2).head? ≠ some x := by
  induction signals with
  | nil =>
    intro eng st
    simp [deliver_nil, announcedTo]
  | cons sig rest ih =>
    intro eng st
    rw [deliver_cons]
    simp only [announcedTo_append]
    obtain ⟨hchain, hhead⟩ :=
      ih (Scheduler.step cfg sig eng st).1 (Scheduler.step cfg sig eng st).2.1
    rcases announces_step cfg sig eng st with ⟨hnone, hsame⟩ | ⟨x, hone, hne, hnew⟩
    · rw [hnone, List.nil_append]
      refine ⟨hchain, ?_⟩
      intro y hy
      exact hhead y (hsame.trans hy)
    · rw [hone]
      refine ⟨?_, ?_⟩
      · rw [List.singleton_append, List.chain'_cons']
        refine ⟨?_, hchain⟩
        intro y hy heq
        subst heq
        exact hhead x hnew (by simpa using hy)
      · intro y hy
        simp only [List.singleton_append, List.head?_cons]
        intro hxy
        apply hne
        rw [hy]
        exact hxy.symm

/-! ### Lemmas on the start of leading -/

theorem started_not_mem_renewFailed (cfg : ElectionConfig) (now : Nat) (eng : Engine) :
    CallbackCall.startedLeading ∉ (eng.renewFailed cfg now).2 := by
  unfold Engine.renewFailed
  split <;> simp

theorem newLeader_not_mem_renewFailed (cfg : ElectionConfig) (now : Nat) (eng : Engine)
    (x : String) : CallbackCall.newLeader x ∉ (eng.renewFailed cfg now).2 := by
  unfold Engine.renewFailed
  split <;> simp

theorem started_not_mem_follow (eng : Engine) :
    CallbackCall.startedLeading ∉ eng.follow.2 := by
  unfold Engine.follow
  simp only []
  split <;> simp

theorem newLeader_not_mem_follow (eng : Engine) (x : String) :
    CallbackCall.newLeader x ∉ eng.follow.2 := by
  unfold Engine.follow
  simp only []
  split <;> simp

theorem announce_calls (eng : Engine) (h : String) :
    (eng.announce (some h)).2 =
      if eng.lastHolder = some h then [] else [CallbackCall.newLeader h] := by
  unfold Engine.announce
  simp only []
  split <;> rfl

theorem started_not_mem_announce (eng : Engine) (holder : Option String) :
    CallbackCall.startedLeading ∉ (eng.announce holder).2 := by
  cases holder with
  | none => simp [Engine.announce]
  | some h =>
    rw [announce_calls]
    split <;> simp

theorem newLeader_mem_announce (eng : Engine) (holder : Option String) (x : String)
    (h : CallbackCall.newLeader x ∈ (eng.announce holder).2) : holder = some x := by
  cases holder with
  | none => simp [Engine.announce] at h
  | some y =>
    rw [announce_calls] at h
    split at h
    · simp at h
    · simp at h
      rw [h]

theorem followHolder_calls (eng : Engine) (holder : Option String) :
    (eng.followHolder holder).2 = eng.follow.2 ++ (eng.follow.1.announce holder).2 := rfl

theorem started_not_mem_followHolder (eng : Engine) (holder : Option String) :
    CallbackCall.startedLeading ∉ (eng.followHolder holder).2 := by
  rw [followHolder_calls, List.mem_append]
  rintro (h | h)
  · exact started_not_mem_follow eng h
  · exact started_not_mem_announce _ _ h

theorem newLeader_mem_followHolder (eng : Engine) (holder : Option String) (x : String)
    (h : CallbackCall.newLeader x ∈ (eng.followHolder holder).2) : holder = some x := by
  rw [followHolder_calls, List.mem_append] at h
  rcases h with h | h
  · exact absurd h (newLeader_not_mem_follow eng x)
  · exact newLeader_mem_announce _ _ _ h

theorem acquired_calls (cfg : ElectionConfig) (now : Nat) (eng : Engine) (record : LeaseRecord)
    (version : Nat) :
    (eng.acquired cfg now record version).2 =
      CallbackCall.startedLeading ::
        (if eng.lastHolder = some cfg.identity then []
         else [CallbackCall.newLeader cfg.identity]) := by
  rw [acquired_eq]
  show CallbackCall.startedLeading :: (Engine.announce _ (some cfg.identity)).2 = _
  rw [announce_calls]

theorem started_not_mem_observing (r : Engine × List CallbackCall) (holder : Option String)
    (h : CallbackCall.startedLeading ∉ r.2) :
    CallbackCall.startedLeading ∉ (Engine.observing r holder).2 := by
  rw [observing_calls, List.mem_append]
  rintro (h1 | h1)
  · exact h h1
  · exact started_not_mem_announce _ _ h1

theorem newLeader_mem_observing (r : Engine × List CallbackCall) (holder : Option String)
    (x : String) (hr : CallbackCall.newLeader x ∉ r.2)
    (h : CallbackCall.newLeader x ∈ (Engine.observing r holder).2) : holder = some x := by
  rw [observing_calls, List.mem_append] at h
  rcases h with h | h
  · exact absurd h hr
  · exact newLeader_mem_announce _ _ _ h

/-- A tick at which `OnStartedLeading` fires fires it first, followed by
`OnNewLeader` of the engine's own identity unless that identity is the one it
announced last, and by nothing else. -/
theorem started_tick (cfg : ElectionConfig) (env : TickEnv) (eng : Engine) (st : LeaseStore) :
    CallbackCall.startedLeading ∈ (tryAcquireOrRenew cfg env eng st).2.2 →
      (tryAcquireOrRenew cfg env eng st).2.2 =
        CallbackCall.startedLeading ::
          (if eng.lastHolder = some cfg.identity then []
           else [CallbackCall.newLeader cfg.identity]) := by
  unfold tryAcquireOrRenew
  split
  · intro h; exact absurd h (started_not_mem_renewFailed cfg env.now eng)
  · split
    · intro _; exact acquired_calls cfg env.now eng _ _
    · intro h; exact absurd h (started_not_mem_followHolder eng _)
    · intro h; exact absurd h (started_not_mem_renewFailed cfg env.now eng)
  · split
    · split
      · split
        · intro h
          exact absurd h (started_not_mem_observing _ _ (by simp))
        · intro _; exact acquired_calls cfg env.now eng _ _
      · intro h; exact absurd h (started_not_mem_followHolder _ _)
      · intro h
        exact absurd h
          (started_not_mem_observing _ _ (started_not_mem_renewFailed cfg env.now _))
    · split
      · intro h; exact absurd h (started_not_mem_followHolder _ _)
      · split
        · intro _; exact acquired_calls cfg env.now eng _ _
        · intro h; exact absurd h (started_not_mem_followHolder _ _)
        · intro h
          exact absurd h
            (started_not_mem_observing _ _ (started_not_mem_renewFailed cfg env.now _))

theorem started_mem_acquired (cfg : ElectionConfig) (now : Nat) (eng : Engine)
    (record : LeaseRecord) (version : Nat) :
    CallbackCall.startedLeading ∈ (eng.acquired cfg now record version).2 := by
  rw [acquired_calls]
  exact List.mem_cons_self _ _

theorem get_notFound (reachable : Bool) (st : LeaseStore) (key : ObjectMeta)
    (h : LeaseStore.get reachable st key = .notFound) : LeaseStore.entry st key = none := by
  unfold LeaseStore.get at h
  split at h
  · split at h
    · simp at h
    · assumption
  · simp at h

theorem get_found (reachable : Bool) (st : LeaseStore) (key : ObjectMeta)
    (record : LeaseRecord) (version : Nat)
    (h : LeaseStore.get reachable st key = .found record version) :
    ∃ e, LeaseStore.entry st key = some e ∧ e.record = record ∧ e.version = version := by
  unfold LeaseStore.get at h
  split at h
  · split at h
    · rename_i e hentry
      simp at h
      exact ⟨e, hentry, h.1, h.2⟩
    · simp at h
  · simp at h

theorem create_alreadyExists (reachable : Bool) (st : LeaseStore) (key : ObjectMeta)
    (record : LeaseRecord) (st1 : LeaseStore)
    (h : LeaseStore.create reachable st key record = (.alreadyExists, st1)) : st1 = st := by
  unfold LeaseStore.create at h
  split at h
  · split at h
    · simp at h
      exact h.symm
    · simp at h
  · simp at h

/-- A tick that fires `OnNewLeader` of the engine's own identity fires
`OnStartedLeading` too, or has found the record already in the engine's own
name, at its read or at its write. -/
theorem own_name_tick (cfg : ElectionConfig) (env : TickEnv) (eng : Engine) (st : LeaseStore) :
    CallbackCall.newLeader cfg.identity ∈ (tryAcquireOrRenew cfg env eng st).2.2 →
      CallbackCall.startedLeading ∈ (tryAcquireOrRenew cfg env eng st).2.2 ∨
      ∃ e, (LeaseStore.entry st cfg.lease = some e ∨
          LeaseStore.entry (env.interference st) cfg.lease = some e) ∧
        e.record.holderIdentity = some cfg.identity := by
  unfold tryAcquireOrRenew
  split
  · intro h; exact absurd h (newLeader_not_mem_renewFailed cfg env.now eng _)
  · split
    · intro _; exact Or.inl (started_mem_acquired cfg env.now eng _ _)
    · rename_i _ st1 hcreate
      intro h
      have hholder := newLeader_mem_followHolder _ _ _ h
      have hst1 : st1 = env.interference st := create_alreadyExists _ _ _ _ _ hcreate
      subst hst1
      cases hentry : LeaseStore.entry (env.interference st) cfg.lease with
      | none => simp [hentry] at hholder
      | some e =>
        simp only [hentry, Option.bind_some] at hholder
        exact Or.inr ⟨e, Or.inr rfl, hholder⟩
    · intro h; exact absurd h (newLeader_not_mem_renewFailed cfg env.now eng _)
  · rename_i record version hget
    obtain ⟨e, hentry, hrecord, _⟩ := get_found _ _ _ _ _ hget
    split
    · rename_i hown
      intro _
      exact Or.inr ⟨e, Or.inl hentry, by rw [hrecord]; exact hown⟩
    · rename_i hne
      split
      · intro h
        exact absurd (newLeader_mem_followHolder _ _ _ h) hne
      · split
        · intro _; exact Or.inl (started_mem_acquired cfg env.now eng _ _)
        · intro h
          exact absurd (newLeader_mem_followHolder _ _ _ h) hne
        · intro h
          exact absurd
            (newLeader_mem_observing _ _ _ (newLeader_not_mem_renewFailed cfg env.now _ _) h)
            hne

/-- The engine's record of the holder it announced last is the last identity
passed to `OnNewLeader`. -/
theorem lastHolder_deliver (cfg : ElectionConfig) (signals : List Signal) :
    ∀ (eng : Engine) (st : LeaseStore),
      (deliver cfg signals eng st).1.lastHolder =
        ((announcedTo (deliver cfg signals eng st).2.2).getLast?).or eng.lastHolder := by
  induction signals with
  | nil =>
    intro eng st
    simp [deliver_nil, announcedTo]
  | cons sig rest ih =>
    intro eng st
    rw [deliver_cons]
    simp only [announcedTo_append, List.getLast?_append]
    rw [ih]
    rcases announces_step cfg sig eng st with ⟨hnone, hsame⟩ | ⟨x, hone, _, hnew⟩
    · rw [hnone, hsame]
      simp
    · rw [hone, hnew]
      cases (announcedTo (deliver cfg rest (Scheduler.step cfg sig eng st).1
        (Scheduler.step cfg sig eng st).2.1).2.2).getLast? <;> simp

/-! ### Lemmas on a candidate alone on an empty store -/

theorem tick_alone_empty (cfg : ElectionConfig) (env : TickEnv) (eng : Engine)
    (halone : ∀ st, env.interference st = st) (hnone : eng.lastHolder = none) :
    ((tryAcquireOrRenew cfg env eng []).2.1 = [] ∧
      (tryAcquireOrRenew cfg env eng []).1.lastHolder = none ∧
      announcedTo (tryAcquireOrRenew cfg env eng []).2.2 = []) ∨
    announcedTo (tryAcquireOrRenew cfg env eng []).2.2 = [cfg.identity] := by
  unfold tryAcquireOrRenew
  rw [halone]
  split
  · left
    exact ⟨rfl, (renewFailed_quiet cfg env.now eng).1.trans hnone,
      (renewFailed_quiet cfg env.now eng).2⟩
  · split
    · right
      show announcedTo (Engine.acquired cfg env.now eng _ _).2 = [cfg.identity]
      rw [acquired_calls, hnone]
      simp [announcedTo]
    · rename_i hcreate
      simp [LeaseStore.create, LeaseStore.entry] at hcreate
      split at hcreate <;> simp at hcreate
    · rename_i st1 hcreate
      have hst1 : st1 = [] := by
        simp only [LeaseStore.create, LeaseStore.entry, List.find?_nil] at hcreate
        split at hcreate
        · simp at hcreate
        · simp at hcreate
          exact hcreate
      subst hst1
      left
      exact ⟨rfl, (renewFailed_quiet cfg env.now eng).1.trans hnone,
        (renewFailed_quiet cfg env.now eng).2⟩
  · rename_i hget
    simp only [LeaseStore.get, LeaseStore.entry, List.find?_nil] at hget
    split at hget <;> simp at hget

theorem release_alone_empty (cfg : ElectionConfig) (writeReachable : Bool) (eng : Engine) :
    (release cfg writeReachable eng []).2.1 = [] ∧
    (release cfg writeReachable eng []).1.lastHolder = eng.lastHolder ∧
    announcedTo (release cfg writeReachable eng []).2.2 = [] := by
  unfold release
  split
  · refine ⟨?_, rfl, rfl⟩
    simp only []
    split
    · split
      · simp only [LeaseStore.update, LeaseStore.entry, List.find?_nil]
        split <;> rfl
      · rfl
    · rfl
  · exact ⟨rfl, rfl, rfl⟩

theorem step_alone_empty (cfg : ElectionConfig) (sig : Signal) (eng : Engine)
    (halone : sig.alone) (hnone : eng.lastHolder = none) :
    ((Scheduler.step cfg sig eng []).2.1 = [] ∧
      (Scheduler.step cfg sig eng []).1.lastHolder = none ∧
      announcedTo (Scheduler.step cfg sig eng []).2.2 = []) ∨
    announcedTo (Scheduler.step cfg sig eng []).2.2 = [cfg.identity] := by
  unfold Scheduler.step
  split
  · exact Or.inl ⟨rfl, hnone, rfl⟩
  · cases sig with
    | tick env => exact tick_alone_empty cfg env eng halone hnone
    | cancel writeReachable =>
      left
      have h := release_alone_empty cfg writeReachable eng
      exact ⟨h.1, h.2.1.trans hnone, h.2.2⟩
    | others act => exact absurd halone (by simp [Signal.alone])

/-- For a candidate alone on an empty store, the first identity passed to
`OnNewLeader`, if any, is its own. -/
theorem first_announced_alone (cfg : ElectionConfig) (signals : List Signal) :
    (∀ sig ∈ signals, Signal.alone sig) → ∀ eng : Engine, eng.lastHolder = none →
      (announcedTo (deliver cfg signals eng []).2.2).head? = none ∨
      (announcedTo (deliver cfg signals eng []).2.2).head? = some cfg.identity := by
  induction signals with
  | nil =>
    intro _ eng _
    left
    simp [deliver_nil, announcedTo]
  | cons sig rest ih =>
    intro halone eng hnone
    rw [deliver_cons]
    simp only [announcedTo_append]
    rcases step_alone_empty cfg sig eng (halone sig (List.mem_cons_self _ _)) hnone with
      ⟨hst, hlast, hquiet⟩ | hfirst
    · rw [hquiet, hst, List.nil_append]
      exact ih (fun s hs => halone s (List.mem_cons_of_mem _ hs)) _ hlast
    · right
      rw [hfirst]
      rfl

/-- C5 as stated fails on the model: the lease `test-lease-callbacks` already
names `test-pod-1`, left so by an earlier run of that pod. At the first tick
of the new engine the read finds the record and the renewal is refused with
`StoreError`: `OnNewLeader("test-pod-1")` is invoked and the engine does not
start leading. At its second tick the renewal succeeds: the engine starts
leading, `OnStartedLeading` fires, and `OnNewLeader` is not invoked, its own
identity being the one announced last. The run, cancelled next, returns with
these callbacks and `OnStoppedLeading`. -/
theorem new_leader_apart_from_start :
    (tryAcquireOrRenew callbacksCandidate (TickEnv.writeRefused 1) Engine.initial
      ownRecordStore).2.2 = [.newLeader "test-pod-1"] ∧
    (tryAcquireOrRenew callbacksCandidate (TickEnv.writeRefused 1) Engine.initial
      ownRecordStore).1.state = .Unknown ∧
    (tryAcquireOrRenew callbacksCandidate (TickEnv.quiet 2)
      (tryAcquireOrRenew callbacksCandidate (TickEnv.writeRefused 1) Engine.initial
        ownRecordStore).1
      (tryAcquireOrRenew callbacksCandidate (TickEnv.writeRefused 1) Engine.initial
        ownRecordStore).2.1).2.2 = [.startedLeading] ∧
    (tryAcquireOrRenew callbacksCandidate (TickEnv.quiet 2)
      (tryAcquireOrRenew callbacksCandidate (TickEnv.writeRefused 1) Engine.initial
        ownRecordStore).1
      (tryAcquireOrRenew callbacksCandidate (TickEnv.writeRefused 1) Engine.initial
        ownRecordStore).2.1).1.state = .Leading ∧
    (run callbacksCandidate
      [.tick (TickEnv.writeRefused 1), .tick (TickEnv.quiet 2), .cancel true]
      Engine.initial ownRecordStore).map (fun r => r.2.2) =
      some [.newLeader "test-pod-1", .startedLeading, .stoppedLeading] := by
  refine ⟨?_, ?_, ?_, ?_, ?_⟩ <;> decide

/-- C5, amended: for every candidate, at a tick where its engine starts
leading (`OnStartedLeading` fires) `OnNewLeader` is invoked with the
candidate's own identity unless that identity is the one announced last, and
then `OnNewLeader` is not invoked at that tick; `OnNewLeader` is invoked with
the candidate's own identity only at a tick where the engine starts leading
or finds the lease record already in its own name; a candidate alone on an
empty store announces itself at its first tick that reaches the store, and
the first identity passed to `OnNewLeader` is its own; no two consecutive
invocations of `OnNewLeader` carry the same identity, the identity kept as
announced last being the one of the latest invocation. -/
theorem new_leader_callbacks (cfg : ElectionConfig) :
    (∀ (env : TickEnv) (eng : Engine) (st : LeaseStore),
      CallbackCall.startedLeading ∈ (tryAcquireOrRenew cfg env eng st).2.2 →
        (eng.lastHolder ≠ some cfg.identity →
          CallbackCall.newLeader cfg.identity ∈ (tryAcquireOrRenew cfg env eng st).2.2) ∧
        (eng.lastHolder = some cfg.identity →
          announcedTo (tryAcquireOrRenew cfg env eng st).2.2 = [])) ∧
    (∀ (env : TickEnv) (eng : Engine) (st : LeaseStore),
      CallbackCall.newLeader cfg.identity ∈ (tryAcquireOrRenew cfg env eng st).2.2 →
      CallbackCall.startedLeading ∈ (tryAcquireOrRenew cfg env eng st).2.2 ∨
      ∃ e, (LeaseStore.entry st cfg.lease = some e ∨
          LeaseStore.entry (env.interference st) cfg.lease = some e) ∧
        e.record.holderIdentity = some cfg.identity) ∧
    (∀ now : Nat,
      (tryAcquireOrRenew cfg (TickEnv.quiet now) Engine.initial []).2.2 =
        [.startedLeading, .newLeader cfg.identity]) ∧
    (∀ signals : List Signal, (∀ sig ∈ signals, Signal.alone sig) →
      (announcedTo (deliver cfg signals Engine.initial []).2.2).head? = none ∨
      (announcedTo (deliver cfg signals Engine.initial []).2.2).head? = some cfg.identity) ∧
    (∀ (signals : List Signal) (st : LeaseStore),
      List.Chain' (fun a b => a ≠ b)
        (announcedTo (deliver cfg signals Engine.initial st).2.2) ∧
      (deliver cfg signals Engine.initial st).1.lastHolder =
        (announcedTo (deliver cfg signals Engine.initial st).2.2).getLast?) := by
  refine ⟨?_, ?_, ?_, ?_, ?_⟩
  · intro env eng st hstart
    have hcalls := started_tick cfg env eng st hstart
    constructor
    · intro hne
      rw [hcalls]
      simp [hne]
    · intro heq
      rw [hcalls]
      simp [heq, announcedTo]
  · intro env eng st
    exact own_name_tick cfg env eng st
  · intro now
    have hstart : CallbackCall.startedLeading ∈
        (tryAcquireOrRenew cfg (TickEnv.quiet now) Engine.initial []).2.2 := by
      simp [tryAcquireOrRenew, TickEnv.quiet, LeaseStore.get, LeaseStore.create,
        LeaseStore.entry, withStore, acquired_eq]
    rw [started_tick cfg _ _ _ hstart]
    simp [Engine.initial]
  · intro signals halone
    exact first_announced_alone cfg signals halone Engine.initial rfl
  · intro signals st
    refine ⟨(announced_chain cfg signals Engine.initial st).1, ?_⟩
    rw [lastHolder_deliver]
    simp [Engine.initial]

/-- Witness of C5, amended: the candidate `test-pod-1` of the callbacks test,
at its first tick on the empty store. -/
theorem new_leader_callbacks_witness :
    CallbackCall.newLeader "test-pod-1" ∈
      (tryAcquireOrRenew callbacksCandidate (TickEnv.quiet 0) Engine.initial []).2.2 :=
  ((new_leader_callbacks callbacksCandidate).1
    (TickEnv.quiet 0) Engine.initial [] (by decide)).1 (by decide)

/-- C6: for a candidate that is `Leading` and was configured with
`releaseOnCancel = true`, the cancellation of its governing lifetime makes the
engine `Released` and fires `OnStoppedLeading` and nothing else; `run` returns
at the cancellation, whatever signals would follow; in the store the record
under the lease's name has its holderIdentity cleared or the store is left as
it was (the lease then expires), and it is cleared whenever the store is
reachable and still holds the version the engine last observed; `main` and
every test configure `ReleaseOnCancel: true`. -/
theorem graceful_release (cfg : ElectionConfig) (writeReachable : Bool) (eng : Engine)
    (st : LeaseStore) (rest : List Signal)
    (hrel : cfg.releaseOnCancel = true) (hlead : eng.state = .Leading) :
    (release cfg writeReachable eng st).1.state = .Released ∧
    (release cfg writeReachable eng st).2.2 = [.stoppedLeading] ∧
    run cfg (.cancel writeReachable :: rest) eng st =
      some (release cfg writeReachable eng st) ∧
    ((release cfg writeReachable eng st).2.1 = st ∨
      ∃ e, LeaseStore.entry (release cfg writeReachable eng st).2.1 cfg.lease = some e ∧
        e.record.holderIdentity = none) ∧
    (∀ (record : LeaseRecord) (version : Nat) (e : StoreEntry),
      eng.observed = some (record, version) → LeaseStore.entry st cfg.lease = some e →
      e.version = version → writeReachable = true →
      LeaseStore.get true (release cfg writeReachable eng st).2.1 cfg.lease =
        .found { record with holderIdentity := none } (version + 1)) ∧
    (∀ lock : LeaseLock, (mainElectionConfig lock).toElectionConfig.releaseOnCancel = true) ∧
    (∀ lec ∈ testConfigs, lec.toElectionConfig.releaseOnCancel = true) := by
  have hstate : (release cfg writeReachable eng st).1.state = .Released := by
    simp [release, hlead]
  have hcalls : (release cfg writeReachable eng st).2.2 = [.stoppedLeading] := by
    simp [release, hlead]
  refine ⟨hstate, hcalls, ?_, ?_, ?_, fun _ => rfl, ?_⟩
  · have hstep : Scheduler.step cfg (.cancel writeReachable) eng st =
        release cfg writeReachable eng st := by
      simp [Scheduler.step, hlead]
    have hdeliver : deliver cfg (.cancel writeReachable :: rest) eng st =
        release cfg writeReachable eng st := by
      rw [deliver_cons, hstep, deliver_released cfg rest _ _ hstate]
      simp
    unfold run
    rw [hdeliver, if_pos hstate]
  · simp only [release, hlead, hrel, if_true]
    cases hobs : eng.observed with
    | none => exact Or.inl rfl
    | some ov =>
      obtain ⟨record, version⟩ := ov
      simp only [LeaseStore.update]
      cases writeReachable with
      | false => exact Or.inl rfl
      | true =>
        cases hentry : LeaseStore.entry st cfg.lease with
        | none => exact Or.inl rfl
        | some e =>
          by_cases hv : e.version = version
          · right
            refine ⟨{ e with record := { record with holderIdentity := none },
                             version := version + 1 }, ?_, rfl⟩
            simp only [hv, if_true]
            exact entry_map_update cfg.lease _ _ st e hentry
          · left
            simp [hv]
  · intro record version e hobs hentry hv hreach
    subst hreach
    simp only [release, hlead, hrel, hobs, if_true, LeaseStore.update, hentry, hv,
      LeaseStore.get]
    rw [entry_map_update cfg.lease _ _ st e hentry]
  · intro lec hlec
    simp only [testConfigs, List.mem_cons, List.mem_singleton, List.not_mem_nil,
      or_false] at hlec
    rcases hlec with h | h | h | h | h | h | h | h <;> subst h <;> rfl

/-- Witness of C6: the candidate `test-pod-1` of the shutdown test, `Leading`
on the lease `test-lease-shutdown` since its first tick, is cancelled: `run`
returns with the engine `Released`, `OnStoppedLeading` fired, and the stored
record has no holder. -/
theorem graceful_release_witness :
    run (testElectionConfig (testLock "test-lease-shutdown" "test-pod-1")).toElectionConfig
      [.cancel true, .tick (TickEnv.quiet 1)]
      (tryAcquireOrRenew
        (testElectionConfig (testLock "test-lease-shutdown" "test-pod-1")).toElectionConfig
        (TickEnv.quiet 0) Engine.initial []).1
      (tryAcquireOrRenew
        (testElectionConfig (testLock "test-lease-shutdown" "test-pod-1")).toElectionConfig
        (TickEnv.quiet 0) Engine.initial []).2.1 =
    some
      ({ state := .Released,
         observed := some ({ holderIdentity := some "test-pod-1", leaseDurationSeconds := 5,
                             acquireTime := 0, renewTime := 0, leaderTransitions := 0 }, 1),
         observedAt := 0, lastHolder := some "test-pod-1", lastRenew := 0 },
       [{ key := { Name := "test-lease-shutdown", Namespace := "default" },
          record := { holderIdentity := none, leaseDurationSeconds := 5,
                      acquireTime := 0, renewTime := 0, leaderTransitions := 0 },
          version := 2 }],
       [.stoppedLeading]) :=
  (graceful_release
    (testElectionConfig (testLock "test-lease-shutdown" "test-pod-1")).toElectionConfig true
    (tryAcquireOrRenew
      (testElectionConfig (testLock "test-lease-shutdown" "test-pod-1")).toElectionConfig
      (TickEnv.quiet 0) Engine.initial []).1
    (tryAcquireOrRenew
      (testElectionConfig (testLock "test-lease-shutdown" "test-pod-1")).toElectionConfig
      (TickEnv.quiet 0) Engine.initial []).2.1
    [.tick (TickEnv.quiet 1)] rfl (by decide)).2.2.1

/-! ### Lemmas on the steps of one candidate among several -/

theorem create_created (reachable : Bool) (st : LeaseStore) (key : ObjectMeta)
    (record : LeaseRecord) (version : Nat) (st1 : LeaseStore)
    (h : LeaseStore.create reachable st key record = (.created version, st1)) :
    st1 = { key := key, record := record, version := 1 } :: st := by
  unfold LeaseStore.create at h
  split at h
  · split at h
    · simp at h
    · simp at h
      exact h.2.symm
  · simp at h

theorem create_storeError (reachable : Bool) (st : LeaseStore) (key : ObjectMeta)
    (record : LeaseRecord) (st1 : LeaseStore)
    (h : LeaseStore.create reachable st key record = (.storeError, st1)) : st1 = st := by
  unfold LeaseStore.create at h
  split at h
  · split at h <;> simp at h
  · simp at h
    exact h.symm

theorem update_updated (reachable : Bool) (st : LeaseStore) (key : ObjectMeta)
    (record : LeaseRecord) (version newVersion : Nat) (st1 : LeaseStore)
    (h : LeaseStore.update reachable st key record version = (.updated newVersion, st1)) :
    ∃ e, LeaseStore.entry st key = some e ∧
      LeaseStore.entry st1 key = some { e with record := record, version := newVersion } := by
  unfold LeaseStore.update at h
  split at h
  · split at h
    · rename_i e hentry
      split at h
      · simp at h
        obtain ⟨hv, hst1⟩ := h
        subst hv
        subst hst1
        exact ⟨e, hentry, entry_map_update key _ _ st e hentry⟩
      · simp at h
    · simp at h
  · simp at h

theorem update_refused (reachable : Bool) (st : LeaseStore) (key : ObjectMeta)
    (record : LeaseRecord) (version : Nat) (res : UpdateResult) (st1 : LeaseStore)
    (h : LeaseStore.update reachable st key record version = (res, st1))
    (hres : ∀ newVersion, res ≠ .updated newVersion) : st1 = st := by
  unfold LeaseStore.update at h
  split at h
  · split at h
    · split at h
      · simp at h
        exact absurd h.1.symm (hres _)
      · simp at h
        exact h.2.symm
    · simp at h
      exact h.2.symm
  · simp at h
    exact h.2.symm

theorem announce_keeps (eng : Engine) (holder : Option String) :
    (eng.announce holder).1.state = eng.state ∧
    (eng.announce holder).1.lastRenew = eng.lastRenew ∧
    (eng.announce holder).1.observed = eng.observed := by
  unfold Engine.announce
  cases holder with
  | none => exact ⟨rfl, rfl, rfl⟩
  | some h =>
    simp only []
    split <;> exact ⟨rfl, rfl, rfl⟩

theorem observing_keeps (r : Engine × List CallbackCall) (holder : Option String) :
    (Engine.observing r holder).1.state = r.1.state ∧
    (Engine.observing r holder).1.lastRenew = r.1.lastRenew ∧
    (Engine.observing r holder).1.observed = r.1.observed :=
  announce_keeps r.1 holder

theorem renewFailed_keeps (cfg : ElectionConfig) (now : Nat) (eng : Engine) :
    ((eng.renewFailed cfg now).1.state = .Leading →
      eng.state = .Leading ∧ now < eng.lastRenew + cfg.renewDeadline) ∧
    (eng.renewFailed cfg now).1.lastRenew = eng.lastRenew ∧
    (eng.renewFailed cfg now).1.observed = eng.observed := by
  unfold Engine.renewFailed
  split
  · exact ⟨fun h => by simp at h, rfl, rfl⟩
  · rename_i hnot
    refine ⟨fun h => ⟨h, ?_⟩, rfl, rfl⟩
    by_contra hlt
    exact hnot ⟨h, by omega⟩

theorem followHolder_keeps (eng : Engine) (holder : Option String) :
    (eng.followHolder holder).1.state = .Following ∧
    (eng.followHolder holder).1.observed = eng.observed := by
  have h := observing_keeps eng.follow holder
  exact ⟨h.1, h.2.2⟩

theorem acquired_keeps (cfg : ElectionConfig) (now : Nat) (eng : Engine)
    (record : LeaseRecord) (version : Nat) :
    (eng.acquired cfg now record version).1.state = .Leading ∧
    (eng.acquired cfg now record version).1.lastRenew = now ∧
    (eng.acquired cfg now record version).1.observed = some (record, version) := by
  rw [acquired_eq]
  exact announce_keeps
    { eng with state := .Leading, observed := some (record, version), observedAt := now,
               lastRenew := now } (some cfg.identity)

theorem effect_kept (cfg : ElectionConfig) (now : Nat) (eng : Engine) (st : LeaseStore)
    (D : Nat) (r : Engine × LeaseStore × List CallbackCall) (hst : r.2.1 = st)
    (hkeep : r.1.state = .Leading →
      eng.state = .Leading ∧ now < eng.lastRenew + cfg.renewDeadline)
    (hlast : r.1.lastRenew = eng.lastRenew) (hobs : ObservedOK D r.1)
    (hstore : StoreOK cfg.lease D st) :
    StoreOK cfg.lease D r.2.1 ∧ ObservedOK D r.1 ∧ StepEffect cfg (some now) eng st r := by
  refine ⟨by rw [hst]; exact hstore, hobs, Or.inl ⟨hst, fun h => ⟨(hkeep h).1, hlast, ?_⟩⟩⟩
  intro t ht
  cases ht
  exact (hkeep h).2

theorem effect_following (cfg : ElectionConfig) (tickTime : Option Nat) (eng : Engine)
    (st : LeaseStore) (D : Nat) (r : Engine × LeaseStore × List CallbackCall)
    (hst : r.2.1 = st) (hstate : r.1.state = .Following) (hobs : ObservedOK D r.1)
    (hstore : StoreOK cfg.lease D st) :
    StoreOK cfg.lease D r.2.1 ∧ ObservedOK D r.1 ∧ StepEffect cfg tickTime eng st r := by
  refine ⟨by rw [hst]; exact hstore, hobs, Or.inl ⟨hst, fun h => ?_⟩⟩
  rw [hstate] at h
  cases h

theorem observedOK_of_eq (D : Nat) (eng : Engine) (record : LeaseRecord) (version : Nat)
    (h : eng.observed = some (record, version)) (hD : record.leaseDurationSeconds = D) :
    ObservedOK D eng := by
  intro r v hr
  rw [h] at hr
  cases hr
  exact hD

/-- The effect of one tick of a candidate between whose read and write no
other candidate writes. -/
theorem tick_effect (cfg : ElectionConfig) (env : TickEnv) (eng : Engine) (st : LeaseStore)
    (D : Nat) (henv : ∀ s, env.interference s = s) (hD : cfg.leaseDuration = D)
    (hstore : StoreOK cfg.lease D st) (hobs : ObservedOK D eng) :
    StoreOK cfg.lease D (tryAcquireOrRenew cfg env eng st).2.1 ∧
    ObservedOK D (tryAcquireOrRenew cfg env eng st).1 ∧
    StepEffect cfg (some env.now) eng st (tryAcquireOrRenew cfg env eng st) := by
  unfold tryAcquireOrRenew
  simp only [henv]
  split
  · -- the read is refused
    have hk := renewFailed_keeps cfg env.now eng
    exact effect_kept cfg env.now eng st D _ rfl hk.1 hk.2.1
      (fun r v h => hobs r v (hk.2.2 ▸ h)) hstore
  · rename_i hget
    have habsent := get_notFound _ _ _ hget
    split
    · -- rule 2, created
      rename_i version st1 hcreate
      have hst1 := create_created _ _ _ _ _ _ hcreate
      have hk := acquired_keeps cfg env.now eng
        { holderIdentity := some cfg.identity, leaseDurationSeconds := cfg.leaseDuration,
          acquireTime := env.now, renewTime := env.now, leaderTransitions := 0 } version
      refine ⟨?_, observedOK_of_eq D _ _ _ hk.2.2 hD, Or.inr (Or.inl ⟨env.now, rfl, hk.1, hk.2.1,
        ⟨_, by simp only [withStore, hst1]; exact entry_cons_self _ _ _ _, rfl, rfl⟩, ?_⟩)⟩
      · intro e he
        simp only [withStore, hst1, entry_cons_self] at he
        cases he
        exact hD
      · intro e he
        rw [habsent] at he
        cases he
    · -- rule 2, the record exists
      rename_i st1 hcreate
      have hst1 := create_alreadyExists _ _ _ _ _ hcreate
      have hk := followHolder_keeps eng
        ((st1.entry cfg.lease).bind (fun e => e.record.holderIdentity))
      exact effect_following cfg _ eng st D _ hst1 hk.1 (fun r v h => hobs r v (hk.2 ▸ h)) hstore
    · rename_i st1 hcreate
      have hst1 := create_storeError _ _ _ _ _ hcreate
      have hk := renewFailed_keeps cfg env.now eng
      exact effect_kept cfg env.now eng st D _ hst1 hk.1 hk.2.1
        (fun r v h => hobs r v (hk.2.2 ▸ h)) hstore
  · rename_i record version hget
    obtain ⟨e, hentry, hrecord, hversion⟩ := get_found _ _ _ _ _ hget
    have hdur : record.leaseDurationSeconds = D := by
      rw [← hrecord]; exact hstore e hentry
    split
    · -- rule 3
      rename_i hown
      split
      · rename_i newVersion st1 hupdate
        obtain ⟨e0, hentry0, hentry1⟩ := update_updated _ _ _ _ _ _ _ hupdate
        have hown0 : ∀ e2, LeaseStore.entry st cfg.lease = some e2 →
            e2.record.holderIdentity = some cfg.identity ∨ e2.record.holderIdentity = none ∨
            e2.record.renewTime + e2.record.leaseDurationSeconds ≤ env.now := by
          intro e2 he2
          rw [hentry] at he2
          cases he2
          left
          rw [hrecord]; exact hown
        have hstore1 : StoreOK cfg.lease D st1 := by
          intro e2 he2
          rw [hentry1] at he2
          cases he2
          exact hdur
        split
        · have hk := observing_keeps
            (({ eng with observed := some ({ record with renewTime := env.now }, newVersion),
                         observedAt := env.now, lastRenew := env.now } : Engine),
              ([] : List CallbackCall)) record.holderIdentity
          rename_i hleading
          refine ⟨hstore1, observedOK_of_eq D _ _ _ hk.2.2 hdur,
            Or.inr (Or.inl ⟨env.now, rfl, hk.1.trans hleading, hk.2.1, ⟨_, hentry1, hown, rfl⟩, hown0⟩)⟩
        · have hk := acquired_keeps cfg env.now eng { record with renewTime := env.now }
            newVersion
          refine ⟨hstore1, observedOK_of_eq D _ _ _ hk.2.2 hdur,
            Or.inr (Or.inl ⟨env.now, rfl, hk.1, hk.2.1, ⟨_, hentry1, hown, rfl⟩, hown0⟩)⟩
      · rename_i st1 hupdate
        have hst1 := update_refused _ _ _ _ _ _ _ hupdate (fun v h => by cases h)
        have hk := followHolder_keeps
          ({ eng with observed := some (record, version), observedAt := env.now } : Engine)
          record.holderIdentity
        exact effect_following cfg _ eng st D _ hst1 hk.1
          (observedOK_of_eq D _ _ _ hk.2 hdur) hstore
      · rename_i st1 hupdate
        have hst1 := update_refused _ _ _ _ _ _ _ hupdate (fun v h => by cases h)
        have hr := renewFailed_keeps cfg env.now
          ({ eng with observed := some (record, version), observedAt := env.now } : Engine)
        have hk := observing_keeps
          (Engine.renewFailed cfg env.now
            ({ eng with observed := some (record, version), observedAt := env.now } : Engine))
          record.holderIdentity
        exact effect_kept cfg env.now eng st D _ hst1
          (fun h => hr.1 (hk.1 ▸ h)) (hk.2.1.trans hr.2.1)
          (observedOK_of_eq D _ _ _ (hk.2.2.trans hr.2.2) hdur) hstore
    · rename_i hne
      split
      · -- rule 4
        have hk := followHolder_keeps
          ({ eng with observed := some (record, version), observedAt := env.now } : Engine)
          record.holderIdentity
        exact effect_following cfg _ eng st D _ rfl hk.1
          (observedOK_of_eq D _ _ _ hk.2 hdur) hstore
      · -- rule 5
        rename_i hexpired
        split
        · rename_i newVersion st1 hupdate
          obtain ⟨e0, hentry0, hentry1⟩ := update_updated _ _ _ _ _ _ _ hupdate
          have hk := acquired_keeps cfg env.now eng
            { record with holderIdentity := some cfg.identity, acquireTime := env.now,
                          renewTime := env.now,
                          leaderTransitions := record.leaderTransitions + 1 } newVersion
          refine ⟨?_, observedOK_of_eq D _ _ _ hk.2.2 hdur,
            Or.inr (Or.inl ⟨env.now, rfl, hk.1, hk.2.1, ⟨_, hentry1, rfl, rfl⟩, ?_⟩)⟩
          · intro e2 he2
            simp only [withStore] at he2
            rw [hentry1] at he2
            cases he2
            exact hdur
          · intro e2 he2
            rw [hentry] at he2
            cases he2
            rw [hrecord]
            cases hh : record.holderIdentity with
            | none => exact Or.inr (Or.inl rfl)
            | some x =>
              right; right
              by_contra hlt
              exact hexpired ⟨by simp [hh], by omega⟩
        · rename_i st1 hupdate
          have hst1 := update_refused _ _ _ _ _ _ _ hupdate (fun v h => by cases h)
          have hk := followHolder_keeps
            ({ eng with observed := some (record, version), observedAt := env.now } : Engine)
            record.holderIdentity
          exact effect_following cfg _ eng st D _ hst1 hk.1
            (observedOK_of_eq D _ _ _ hk.2 hdur) hstore
        · rename_i st1 hupdate
          have hst1 := update_refused _ _ _ _ _ _ _ hupdate (fun v h => by cases h)
          have hr := renewFailed_keeps cfg env.now
            ({ eng with observed := some (record, version), observedAt := env.now } : Engine)
          have hk := observing_keeps
            (Engine.renewFailed cfg env.now
              ({ eng with observed := some (record, version), observedAt := env.now } : Engine))
            record.holderIdentity
          exact effect_kept cfg env.now eng st D _ hst1
            (fun h => hr.1 (hk.1 ▸ h)) (hk.2.1.trans hr.2.1)
            (observedOK_of_eq D _ _ _ (hk.2.2.trans hr.2.2) hdur) hstore

theorem release_effect (cfg : ElectionConfig) (writeReachable : Bool) (eng : Engine)
    (st : LeaseStore) (D : Nat) (hstore : StoreOK cfg.lease D st) (hobs : ObservedOK D eng) :
    StoreOK cfg.lease D (release cfg writeReachable eng st).2.1 ∧
    ObservedOK D (release cfg writeReachable eng st).1 ∧
    StepEffect cfg none eng st (release cfg writeReachable eng st) := by
  unfold release
  split
  · rename_i hleading
    refine ⟨?_, hobs, Or.inr (Or.inr ⟨hleading, rfl⟩)⟩
    simp only []
    split
    · split
      · rename_i record version hobserved
        cases hres : LeaseStore.update writeReachable st cfg.lease
            { record with holderIdentity := none } version with
        | mk res st1 =>
          simp only []
          cases res with
          | updated newVersion =>
            obtain ⟨e0, _, hentry1⟩ := update_updated _ _ _ _ _ _ _ hres
            intro e2 he2
            rw [hentry1] at he2
            cases he2
            exact hobs record version hobserved
          | conflict =>
            rw [update_refused _ _ _ _ _ _ _ hres (fun v h => by cases h)]
            exact hstore
          | storeError =>
            rw [update_refused _ _ _ _ _ _ _ hres (fun v h => by cases h)]
            exact hstore
      · exact hstore
    · exact hstore
  · exact ⟨hstore, hobs, Or.inl ⟨rfl, fun h => by cases h⟩⟩

/-- The effect of one event on the engine of its candidate. -/
theorem step_effect (cfg : ElectionConfig) (ev : ClusterEvent) (eng : Engine) (st : LeaseStore)
    (D : Nat) (hD : cfg.leaseDuration = D) (hstore : StoreOK cfg.lease D st)
    (hobs : ObservedOK D eng) :
    StoreOK cfg.lease D (Scheduler.step cfg ev.signal eng st).2.1 ∧
    ObservedOK D (Scheduler.step cfg ev.signal eng st).1 ∧
    StepEffect cfg ev.tickTime eng st (Scheduler.step cfg ev.signal eng st) := by
  unfold Scheduler.step
  split
  · rename_i hreleased
    refine ⟨hstore, hobs, Or.inl ⟨rfl, fun h => ?_⟩⟩
    rw [hreleased] at h
    cases h
  · cases ev with
    | tick candidate now getReachable writeReachable =>
      exact tick_effect cfg _ eng st D (fun _ => rfl) hD hstore hobs
    | cancel candidate writeReachable =>
      exact release_effect cfg writeReachable eng st D hstore hobs

/-! ### The invariant of a cluster whose candidates do not stall -/

theorem getElem?_set_cases {α : Type} (l : List α) (i j : Nat) (a x : α)
    (h : (l.set i a)[j]? = some x) : (j = i ∧ x = a) ∨ (j ≠ i ∧ l[j]? = some x) := by
  by_cases hij : i = j
  · subst hij
    rw [List.getElem?_set] at h
    simp only [if_true] at h
    split at h
    · left
      exact ⟨rfl, (Option.some.inj h).symm⟩
    · cases h
  · rw [List.getElem?_set_ne hij] at h
    exact Or.inr ⟨fun hji => hij hji.symm, h⟩

theorem onTime_spec (gap now : Nat) (cl : Cluster) (h : Cluster.onTime gap now cl = true)
    (j : Nat) (cand : Candidate) (last : Nat) (hj : cl[j]? = some cand)
    (hlast : cand.lastTick = some last) : last ≤ now ∧ now ≤ last + gap := by
  unfold Cluster.onTime at h
  rw [List.all_eq_true] at h
  have hmem : cand ∈ cl := List.mem_iff_getElem?.mpr ⟨j, hj⟩
  have := h cand hmem
  rw [hlast] at this
  simpa using this

theorem step_contends (key : ObjectMeta) (D gap : Nat) (ev : ClusterEvent) (cl : Cluster)
    (st : LeaseStore) (h : Cluster.Contends key D gap cl) :
    Cluster.Contends key D gap (Cluster.step ev cl st).1 := by
  unfold Cluster.step
  cases hcand : cl[ev.candidate]? with
  | none => exact h
  | some cand =>
    simp only []
    refine ⟨?_, ?_⟩
    · intro j x hx
      rcases getElem?_set_cases _ _ _ _ _ hx with ⟨hj, rfl⟩ | ⟨_, hold⟩
      · exact h.1 ev.candidate cand hcand
      · exact h.1 j x hold
    · intro j k a b ha hb hab
      rcases getElem?_set_cases _ _ _ _ _ ha with ⟨hj, rfl⟩ | ⟨hj, ha0⟩
      · rcases getElem?_set_cases _ _ _ _ _ hb with ⟨hk, rfl⟩ | ⟨hk, hb0⟩
        · rw [hj, hk]
        · rw [hj]
          exact h.2 ev.candidate k cand b hcand hb0 hab
      · rcases getElem?_set_cases _ _ _ _ _ hb with ⟨hk, rfl⟩ | ⟨hk, hb0⟩
        · rw [hk]
          exact h.2 j ev.candidate a cand ha0 hcand hab
        · exact h.2 j k a b ha0 hb0 hab

/-- One event keeps the invariant, when it is a cancellation or a tick at
which no running candidate has stalled. -/
theorem step_safe (key : ObjectMeta) (D gap : Nat) (ev : ClusterEvent) (cl : Cluster)
    (st : LeaseStore) (hc : Cluster.Contends key D gap cl) (hs : Cluster.Safe key D cl st)
    (htime : ∀ now, ev.tickTime = some now → Cluster.onTime gap now cl = true) :
    Cluster.Safe key D (Cluster.step ev cl st).1 (Cluster.step ev cl st).2 := by
  unfold Cluster.step
  cases hcand : cl[ev.candidate]? with
  | none => exact hs
  | some cand =>
    simp only []
    obtain ⟨hlease, hD, hR, hgap⟩ := hc.1 ev.candidate cand hcand
    obtain ⟨hstore, hobs, hlead⟩ := hs
    have heff := step_effect cand.cfg ev cand.engine st D hD (hlease ▸ hstore)
      (hobs ev.candidate cand hcand)
    rw [hlease] at heff
    obtain ⟨hstore1, hobs1, heffect⟩ := heff
    refine ⟨hstore1, ?_, ?_⟩
    · intro j x hx
      rcases getElem?_set_cases _ _ _ _ _ hx with ⟨_, rfl⟩ | ⟨_, hold⟩
      · exact hobs1
      · exact hobs j x hold
    · intro j x hx hxlead
      rcases heffect with ⟨hsame, hkeep⟩ | ⟨now, hnow, hstate, hrenew, ⟨e1, hentry1, hholder1, htime1⟩, hpre⟩ |
        ⟨hwas, hreleased⟩
      · -- nothing written
        rw [hsame]
        rcases getElem?_set_cases _ _ _ _ _ hx with ⟨_, rfl⟩ | ⟨_, hold⟩
        · obtain ⟨hwas, hrenew, hshort⟩ := hkeep hxlead
          obtain ⟨e, last, hentry, hholder, htime0, _, _⟩ := hlead ev.candidate cand hcand hwas
          cases hev : ev.tickTime with
          | none =>
            -- a cancellation leaves no engine `Leading`
            exfalso
            cases ev with
            | tick _ _ _ _ => cases hev
            | cancel candidate writeReachable =>
              have : (Scheduler.step cand.cfg (ClusterEvent.cancel candidate writeReachable).signal
                  cand.engine st).1.state = .Released := by
                simp only [Scheduler.step, ClusterEvent.signal, release]
                split
                · assumption
                · split <;> rfl
              rw [this] at hxlead
              cases hxlead
          | some now =>
            refine ⟨e, now, hentry, hholder, ?_, rfl, ?_⟩
            · show e.record.renewTime = _
              rw [htime0]; exact hrenew.symm
            · show now < _ + cand.cfg.renewDeadline
              have := hshort now hev
              rw [← hrenew] at this
              exact this
        · exact hlead j x hold hxlead
      · -- the candidate has acquired or renewed the lease
        rw [hlease] at hentry1 hpre
        rcases getElem?_set_cases _ _ _ _ _ hx with ⟨_, rfl⟩ | ⟨hj, hold⟩
        · refine ⟨e1, now, hentry1, hholder1, ?_, hnow, ?_⟩
          · show e1.record.renewTime = _
            rw [htime1]; exact hrenew.symm
          · show now < _ + cand.cfg.renewDeadline
            rw [hrenew]
            omega
        · -- no other candidate is `Leading` then
          exfalso
          obtain ⟨e, last, hentry, hholder, htime0, hlast, hshort⟩ := hlead j x hold hxlead
          obtain ⟨_, _, _, hgapx⟩ := hc.1 j x hold
          have hdur := hstore e hentry
          have hon := onTime_spec gap now cl (htime now hnow) j x last hold hlast
          rcases hpre e hentry with hsame | hnone | hexpired
          · rw [hholder] at hsame
            exact hj (hc.2 j ev.candidate x cand hold hcand (Option.some.inj hsame))
          · rw [hholder] at hnone
            cases hnone
          · omega
      · -- a release
        rcases getElem?_set_cases _ _ _ _ _ hx with ⟨_, rfl⟩ | ⟨hj, hold⟩
        · rw [hreleased] at hxlead
          cases hxlead
        · exfalso
          obtain ⟨e, _, hentry, hholder, _⟩ := hlead j x hold hxlead
          obtain ⟨e0, _, hentry0, hholder0, _⟩ := hlead ev.candidate cand hcand hwas
          rw [hentry] at hentry0
          cases hentry0
          rw [hholder] at hholder0
          exact hj (hc.2 j ev.candidate x cand hold hcand (Option.some.inj hholder0))

theorem filter_length_le_one {α : Type} (p : α → Bool) :
    ∀ l : List α,
      (∀ (j k : Nat) (a b : α), l[j]? = some a → l[k]? = some b → p a = true → p b = true →
        j = k) →
      (l.filter p).length ≤ 1 := by
  intro l
  induction l with
  | nil => intro _; simp
  | cons x xs ih =>
    intro h
    have hxs : ∀ (j k : Nat) (a b : α), xs[j]? = some a → xs[k]? = some b → p a = true →
        p b = true → j = k := by
      intro j k a b ha hb hpa hpb
      have := h (j + 1) (k + 1) a b (by simpa using ha) (by simpa using hb) hpa hpb
      omega
    by_cases hx : p x = true
    · have hnone : xs.filter p = [] := by
        rw [List.filter_eq_nil_iff]
        intro a ha hpa
        obtain ⟨k, hk⟩ := List.mem_iff_getElem?.mp ha
        have := h 0 (k + 1) x a (by simp) (by simpa using hk) hx hpa
        omega
      simp [List.filter_cons, hx, hnone]
    · simp only [List.filter_cons, hx]
      exact ih hxs

/-- Under the invariant at most one candidate is `Leading`. -/
theorem safe_leaders (key : ObjectMeta) (D gap : Nat) (cl : Cluster) (st : LeaseStore)
    (hc : Cluster.Contends key D gap cl) (hs : Cluster.Safe key D cl st) :
    Cluster.leaders cl ≤ 1 := by
  unfold Cluster.leaders
  apply filter_length_le_one
  intro j k a b ha hb hpa hpb
  have hla : a.engine.state = .Leading := by simpa using hpa
  have hlb : b.engine.state = .Leading := by simpa using hpb
  obtain ⟨e, _, hentry, hholder, _⟩ := hs.2.2 j a ha hla
  obtain ⟨e0, _, hentry0, hholder0, _⟩ := hs.2.2 k b hb hlb
  rw [hentry] at hentry0
  cases hentry0
  rw [hholder] at hholder0
  exact hc.2 j k a b ha hb (Option.some.inj hholder0)

theorem start_getElem? (cfgs : List ElectionConfig) (j : Nat) (cand : Candidate)
    (h : (Cluster.start cfgs)[j]? = some cand) :
    ∃ cfg, cfgs[j]? = some cfg ∧
      cand = { cfg := cfg, engine := Engine.initial, lastTick := none } := by
  unfold Cluster.start at h
  rw [List.getElem?_map] at h
  cases hcfg : cfgs[j]? with
  | none => rw [hcfg] at h; cases h
  | some cfg =>
    rw [hcfg] at h
    exact ⟨cfg, rfl, (Option.some.inj h).symm⟩

theorem start_contends (cfgs : List ElectionConfig) (key : ObjectMeta) (D gap : Nat)
    (hid : (cfgs.map (fun cfg => cfg.identity)).Nodup)
    (hcfg : ∀ cfg ∈ cfgs, cfg.lease = key ∧ cfg.leaseDuration = D ∧
      cfg.retryPeriod < cfg.renewDeadline ∧ cfg.renewDeadline + gap ≤ D) :
    Cluster.Contends key D gap (Cluster.start cfgs) := by
  refine ⟨?_, ?_⟩
  · intro j cand hj
    obtain ⟨cfg, hcfgj, rfl⟩ := start_getElem? cfgs j cand hj
    obtain ⟨h1, h2, h3, h4⟩ := hcfg cfg (List.mem_iff_getElem?.mpr ⟨j, hcfgj⟩)
    exact ⟨h1, h2, Nat.lt_of_le_of_lt (Nat.zero_le _) h3, h4⟩
  · intro j k a b ha hb hab
    obtain ⟨cfga, hja, rfl⟩ := start_getElem? cfgs j a ha
    obtain ⟨cfgb, hkb, rfl⟩ := start_getElem? cfgs k b hb
    have hnd := List.nodup_iff_getElem?_ne_getElem?.mp hid
    have hlj : j < cfgs.length := (List.getElem?_eq_some.mp hja).1
    have hlk : k < cfgs.length := (List.getElem?_eq_some.mp hkb).1
    have hmj : (cfgs.map (fun cfg => cfg.identity))[j]? = some cfga.identity := by
      rw [List.getElem?_map, hja]; rfl
    have hmk : (cfgs.map (fun cfg => cfg.identity))[k]? = some cfgb.identity := by
      rw [List.getElem?_map, hkb]; rfl
    by_contra hne
    rcases Nat.lt_or_gt_of_ne hne with hlt | hgt
    · apply hnd j k hlt (by simpa using hlk)
      rw [hmj, hmk]
      exact congrArg some hab
    · apply hnd k j hgt (by simpa using hlj)
      rw [hmj, hmk]
      exact congrArg some hab.symm

theorem start_safe (cfgs : List ElectionConfig) (key : ObjectMeta) (D : Nat) (st : LeaseStore)
    (hst : StoreOK key D st) : Cluster.Safe key D (Cluster.start cfgs) st := by
  refine ⟨hst, ?_, ?_⟩
  · intro j cand hj
    obtain ⟨cfg, _, rfl⟩ := start_getElem? cfgs j cand hj
    intro r v h
    cases h
  · intro j cand hj hlead
    obtain ⟨cfg, _, rfl⟩ := start_getElem? cfgs j cand hj
    cases hlead

/-- The invariant holds in every state of a run whose schedule lets no
running candidate stall. -/
theorem states_safe (key : ObjectMeta) (D gap : Nat) (events : List ClusterEvent) :
    ∀ (cl : Cluster) (st : LeaseStore), Cluster.Contends key D gap cl →
      Cluster.Safe key D cl st → Cluster.timely gap events cl st = true →
      ∀ s ∈ Cluster.states events cl st,
        Cluster.Contends key D gap s.1 ∧ Cluster.Safe key D s.1 s.2 := by
  induction events with
  | nil =>
    intro cl st hc hs _ s hmem
    simp only [Cluster.states, List.mem_singleton] at hmem
    subst hmem
    exact ⟨hc, hs⟩
  | cons ev rest ih =>
    intro cl st hc hs htimely s hmem
    simp only [Cluster.timely, Bool.and_eq_true] at htimely
    simp only [Cluster.states, List.mem_cons] at hmem
    rcases hmem with rfl | hmem
    · exact ⟨hc, hs⟩
    · refine ih _ _ (step_contends key D gap ev cl st hc) ?_ htimely.2 s hmem
      apply step_safe key D gap ev cl st hc hs
      intro now hnow
      have h1 := htimely.1
      rw [hnow] at h1
      exact h1

/-- C1 as stated fails on the model: the three candidates of the test with
several candidates, under pairwise distinct identities and on the one lease
`test-lease-multi`, start together on an empty store; `test-pod-0` acquires
the lease at time 0 and stalls; at time 5, the lease of 5s expired,
`test-pod-1` takes it, and both engines are `Leading`, while the store names
`test-pod-1`. -/
theorem stalled_leader_overlaps :
    (multiCandidates.map (fun cfg => cfg.identity)).Nodup ∧
    (∀ cfg ∈ multiCandidates,
      cfg.lease = { Name := "test-lease-multi", Namespace := "default" }) ∧
    (Cluster.after stalledLeaderEvents (Cluster.start multiCandidates) []).1.map
      (fun cand => (cand.cfg.identity, cand.engine.state)) =
      [("test-pod-0", .Leading), ("test-pod-1", .Leading), ("test-pod-2", .Following)] ∧
    Cluster.leaders (Cluster.after stalledLeaderEvents (Cluster.start multiCandidates) []).1 = 2 ∧
    (LeaseStore.entry (Cluster.after stalledLeaderEvents (Cluster.start multiCandidates) []).2
      { Name := "test-lease-multi", Namespace := "default" }).map
      (fun e => e.record.holderIdentity) = some (some "test-pod-1") := by
  refine ⟨?_, ?_, ?_, ?_, ?_⟩ <;> decide

/-- C1, amended: for any number of candidates with pairwise distinct
identities that contend for the same lease name and namespace on one store,
with one lease duration and with renew deadlines that end at least `gap`
seconds before it (a lease record present at the start carrying that
duration), under a schedule in which the candidates share one clock and none
of them, while it runs, lets more than `gap` seconds pass without a tick: in
every state the cluster goes through at most one candidate is `Leading`, and
the store's holderIdentity names that candidate. -/
theorem single_leader_without_stall (cfgs : List ElectionConfig) (key : ObjectMeta)
    (leaseDuration gap : Nat)
    (hid : (cfgs.map (fun cfg => cfg.identity)).Nodup)
    (hcfg : ∀ cfg ∈ cfgs, cfg.lease = key ∧ cfg.leaseDuration = leaseDuration ∧
      cfg.retryPeriod < cfg.renewDeadline ∧ cfg.renewDeadline + gap ≤ leaseDuration)
    (st : LeaseStore)
    (hst : ∀ e, LeaseStore.entry st key = some e →
      e.record.leaseDurationSeconds = leaseDuration)
    (events : List ClusterEvent)
    (htimely : Cluster.timely gap events (Cluster.start cfgs) st = true) :
    ∀ s ∈ Cluster.states events (Cluster.start cfgs) st,
      Cluster.leaders s.1 ≤ 1 ∧
      ∀ cand ∈ s.1, cand.engine.state = .Leading →
        ∃ e, LeaseStore.entry s.2 key = some e ∧
          e.record.holderIdentity = some cand.cfg.identity := by
  intro s hmem
  obtain ⟨hc, hs⟩ := states_safe key leaseDuration gap events _ _
    (start_contends cfgs key leaseDuration gap hid hcfg)
    (start_safe cfgs key leaseDuration st hst) htimely s hmem
  refine ⟨safe_leaders key leaseDuration gap s.1 s.2 hc hs, ?_⟩
  intro cand hcand hlead
  obtain ⟨j, hj⟩ := List.mem_iff_getElem?.mp hcand
  obtain ⟨e, _, hentry, hholder, _⟩ := hs.2.2 j cand hj hlead
  exact ⟨e, hentry, hholder⟩

/-- Witness of C1, amended: the three candidates of the test with several
candidates (lease 5s, renew deadline 3s, retry period 1s), each ticking every
second from time 0 to time 6, the store failing the first leader from time 1
on: never more than one of them is `Leading`. -/
theorem single_leader_without_stall_witness :
    (multiCandidates.map (fun cfg => cfg.identity)).Nodup ∧
    Cluster.timely 1 everySecondEvents (Cluster.start multiCandidates) [] = true ∧
    (Cluster.states everySecondEvents (Cluster.start multiCandidates) []).all
      (fun s => decide (Cluster.leaders s.1 ≤ 1)) = true :=
  ⟨by decide, by decide,
   List.all_eq_true.mpr (fun s hs => decide_eq_true
    (single_leader_without_stall multiCandidates
      { Name := "test-lease-multi", Namespace := "default" } 5 1
      (by decide) (by decide) [] (fun e h => by simp [LeaseStore.entry] at h)
      everySecondEvents (by decide) s hs).1)⟩

end LeaderElection
